import Mathlib

/-! Keyboard input of sway: pressed-keysym tracking and key events.

A shallow embedding of `sway/input/keyboard.c`.

* The C types `xkb_keysym_t`, `xkb_keycode_t`, `xkb_mod_mask_t`,
  `xkb_layout_index_t` and `uint32_t` are 32-bit unsigned integers. They are
  embedded as `Nat`; where the C code does arithmetic on them the result is
  reduced modulo `2 ^ 32`.
* A pressed-keysym array `xkb_keysym_t pressed_keysyms[CAP]` is embedded as a
  `List Nat` whose length is the capacity: the C loops `for (i = 0; i < CAP; ++i)`
  walk the list from its head, carrying the slot index.
* Functions that write through a pointer return the updated value.
* The xkbcommon and wlroots calls are library code outside this repository:
  they are passed in as a record of functions (`xkb_lib`).
* Calls on the seat (`wlr_seat_set_keyboard`, `wlr_seat_keyboard_notify_key`)
  are recorded, in order, in a list of `seat_call`.
-/

namespace Sway

/-! ## Constants -/

/-- Modulus of the 32-bit unsigned C types. -/
def UINT32_MOD : Nat := 2 ^ 32

/-- The xkbcommon keysym `XKB_KEY_NoSymbol`, the empty-slot sentinel. -/
def XKB_KEY_NoSymbol : Nat := 0x000000

/-- The xkbcommon keysym `XKB_KEY_Shift_L`. -/
def XKB_KEY_Shift_L : Nat := 0xffe1
/-- The xkbcommon keysym `XKB_KEY_Shift_R`. -/
def XKB_KEY_Shift_R : Nat := 0xffe2
/-- The xkbcommon keysym `XKB_KEY_Control_L`. -/
def XKB_KEY_Control_L : Nat := 0xffe3
/-- The xkbcommon keysym `XKB_KEY_Control_R`. -/
def XKB_KEY_Control_R : Nat := 0xffe4
/-- The xkbcommon keysym `XKB_KEY_Caps_Lock`. -/
def XKB_KEY_Caps_Lock : Nat := 0xffe5
/-- The xkbcommon keysym `XKB_KEY_Shift_Lock`. -/
def XKB_KEY_Shift_Lock : Nat := 0xffe6
/-- The xkbcommon keysym `XKB_KEY_Meta_L`. -/
def XKB_KEY_Meta_L : Nat := 0xffe7
/-- The xkbcommon keysym `XKB_KEY_Meta_R`. -/
def XKB_KEY_Meta_R : Nat := 0xffe8
/-- The xkbcommon keysym `XKB_KEY_Alt_L`. -/
def XKB_KEY_Alt_L : Nat := 0xffe9
/-- The xkbcommon keysym `XKB_KEY_Alt_R`. -/
def XKB_KEY_Alt_R : Nat := 0xffea
/-- The xkbcommon keysym `XKB_KEY_Super_L`. -/
def XKB_KEY_Super_L : Nat := 0xffeb
/-- The xkbcommon keysym `XKB_KEY_Super_R`. -/
def XKB_KEY_Super_R : Nat := 0xffec
/-- The xkbcommon keysym `XKB_KEY_Hyper_L`. -/
def XKB_KEY_Hyper_L : Nat := 0xffed
/-- The xkbcommon keysym `XKB_KEY_Hyper_R`. -/
def XKB_KEY_Hyper_R : Nat := 0xffee

/-- Modelled from the spec: the constant `SWAY_KEYBOARD_PRESSED_KEYSYMS_CAP` is
defined in `sway/input/keyboard.h`, which is not among the sources. The spec
gives the capacity of a pressed-set as the constant N with the value 32. -/
def SWAY_KEYBOARD_PRESSED_KEYSYMS_CAP : Nat := 32

/-! ## Data model -/

/-- The wlroots `enum wlr_key_state`. -/
inductive wlr_key_state where
  | WLR_KEY_RELEASED
  | WLR_KEY_PRESSED
  deriving DecidableEq, Repr

/-- The fields of `struct wlr_event_keyboard_key` that the handler reads. -/
structure wlr_event_keyboard_key where
  time_msec : Nat
  keycode : Nat
  state : wlr_key_state
  deriving DecidableEq, Repr

/-- The part of `struct wlr_keyboard` that the resolvers read: the keymap
handle, and the two components of its `xkb_state` that xkbcommon consults,
namely the held (depressed, latched and locked) modifiers and the effective
layout. -/
structure wlr_keyboard where
  keymap : Nat
  mods : Nat
  layout : Nat
  deriving DecidableEq, Repr

/-- A `struct wlr_input_device`: an identity for the device pointer and its
`keyboard` member. -/
structure wlr_input_device where
  id : Nat
  keyboard : wlr_keyboard
  deriving DecidableEq, Repr

/-- The xkbcommon and wlroots functions called by the resolvers. They are
library code, so they are parameters of the embedding.
`wlr_keyboard_get_modifiers`, `xkb_state_key_get_consumed_mods2` and
`xkb_state_key_get_syms` read the whole keyboard state;
`xkb_state_key_get_layout` reads the keymap and the effective layout of the
state; `xkb_keymap_key_get_syms_by_level` reads only the keymap, with arguments
keycode, layout index and level. -/
structure xkb_lib where
  wlr_keyboard_get_modifiers : wlr_keyboard → Nat
  xkb_state_key_get_consumed_mods2 : wlr_keyboard → Nat → Nat
  xkb_state_key_get_syms : wlr_keyboard → Nat → List Nat
  xkb_state_key_get_layout : Nat → Nat → Nat → Nat
  xkb_keymap_key_get_syms_by_level : Nat → Nat → Nat → Nat → List Nat

/-- The two handlers of this file that are stored in a `notify` member of a
listener. -/
inductive listener_notify where
  | handle_keyboard_key
  | handle_keyboard_modifiers
  deriving DecidableEq, Repr

/-- The members of `struct sway_keyboard` that `keyboard.c` reads and writes
(the declaration is in `sway/input/keyboard.h`): the keymap pointer (`none`
for `NULL`), whether each of the two listeners is linked into a signal, the
`notify` member of each listener (`none` for `NULL`), and the two
pressed-keysym arrays. -/
structure sway_keyboard where
  keymap : Option Nat
  keyboard_key_linked : Bool
  keyboard_modifiers_linked : Bool
  keyboard_key_notify : Option listener_notify := none
  keyboard_modifiers_notify : Option listener_notify := none
  pressed_keysyms_translated : List Nat
  pressed_keysyms_raw : List Nat
  deriving DecidableEq, Repr

/-- A call made on the seat. -/
inductive seat_call where
  | wlr_seat_set_keyboard (device : Nat)
  | wlr_seat_keyboard_notify_key (time_msec : Nat) (keycode : Nat) (state : wlr_key_state)
  deriving DecidableEq, Repr

/-! ## The resolvers -/

/-- The function `keyboard_keysyms_translated`: returns the keysyms xkb gives
for the key under the full state, and the modifiers with the consumed ones
cleared (`*modifiers & ~consumed` on `uint32_t`). -/
def keyboard_keysyms_translated (lib : xkb_lib) (device : wlr_input_device)
    (keycode : Nat) : List Nat × Nat :=
  let modifiers := lib.wlr_keyboard_get_modifiers device.keyboard % UINT32_MOD
  let consumed := lib.xkb_state_key_get_consumed_mods2 device.keyboard keycode % UINT32_MOD
  let modifiers := modifiers &&& (UINT32_MOD - 1 - consumed)
  (lib.xkb_state_key_get_syms device.keyboard keycode, modifiers)

/-- The function `keyboard_keysyms_raw`: returns the keysyms of level 0 of the
key in its layout, and the modifiers as they are. -/
def keyboard_keysyms_raw (lib : xkb_lib) (device : wlr_input_device)
    (keycode : Nat) : List Nat × Nat :=
  let modifiers := lib.wlr_keyboard_get_modifiers device.keyboard % UINT32_MOD
  let layout_index :=
    lib.xkb_state_key_get_layout device.keyboard.keymap device.keyboard.layout keycode
  (lib.xkb_keymap_key_get_syms_by_level device.keyboard.keymap keycode layout_index 0,
    modifiers)

/-! ## The pressed-keysym arrays -/

/-- The loop of `pressed_keysyms_index`, entered at slot `i` with the slots from
`i` on still to scan: the index of the first slot equal to `keysym`, or `-1`. -/
def pressed_keysyms_index_from (i : Nat) : List Nat → Nat → Int
  | [], _ => -1
  | x :: rest, keysym =>
    if x = keysym then (i : Int) else pressed_keysyms_index_from (i + 1) rest keysym

/-- The function `pressed_keysyms_index`. -/
def pressed_keysyms_index (pressed_keysyms : List Nat) (keysym : Nat) : Int :=
  pressed_keysyms_index_from 0 pressed_keysyms keysym

/-- The function `pressed_keysyms_length`: the counter `n` starts at 0 and is
incremented at every slot that is not `XKB_KEY_NoSymbol`. -/
def pressed_keysyms_length (pressed_keysyms : List Nat) : Nat :=
  pressed_keysyms.foldl (fun n x => if x ≠ XKB_KEY_NoSymbol then n + 1 else n) 0

/-- The function `pressed_keysyms_add`. -/
def pressed_keysyms_add (pressed_keysyms : List Nat) (keysym : Nat) : List Nat :=
  let i := pressed_keysyms_index pressed_keysyms keysym
  if i < 0 then
    let i := pressed_keysyms_index pressed_keysyms XKB_KEY_NoSymbol
    if i ≥ 0 then pressed_keysyms.set i.toNat keysym else pressed_keysyms
  else pressed_keysyms

/-- The function `pressed_keysyms_remove`. -/
def pressed_keysyms_remove (pressed_keysyms : List Nat) (keysym : Nat) : List Nat :=
  let i := pressed_keysyms_index pressed_keysyms keysym
  if i ≥ 0 then pressed_keysyms.set i.toNat XKB_KEY_NoSymbol else pressed_keysyms

/-- The function `keysym_is_modifier`. -/
def keysym_is_modifier (keysym : Nat) : Bool :=
  if keysym = XKB_KEY_Shift_L ∨ keysym = XKB_KEY_Shift_R
      ∨ keysym = XKB_KEY_Control_L ∨ keysym = XKB_KEY_Control_R
      ∨ keysym = XKB_KEY_Caps_Lock
      ∨ keysym = XKB_KEY_Shift_Lock
      ∨ keysym = XKB_KEY_Meta_L ∨ keysym = XKB_KEY_Meta_R
      ∨ keysym = XKB_KEY_Alt_L ∨ keysym = XKB_KEY_Alt_R
      ∨ keysym = XKB_KEY_Super_L ∨ keysym = XKB_KEY_Super_R
      ∨ keysym = XKB_KEY_Hyper_L ∨ keysym = XKB_KEY_Hyper_R then true
  else false

/-- The function `pressed_keysyms_update`: the loop over the resolved keysyms,
skipping modifiers, adding on press and removing on release. -/
def pressed_keysyms_update (pressed_keysyms : List Nat) :
    List Nat → wlr_key_state → List Nat
  | [], _ => pressed_keysyms
  | keysym :: rest, state =>
    if keysym_is_modifier keysym then
      pressed_keysyms_update pressed_keysyms rest state
    else if state = wlr_key_state.WLR_KEY_PRESSED then
      pressed_keysyms_update (pressed_keysyms_add pressed_keysyms keysym) rest state
    else
      pressed_keysyms_update (pressed_keysyms_remove pressed_keysyms keysym) rest state

/-! ## The key handler and the lifecycle -/

/-- The function `handle_keyboard_key`. Returns the keyboard after the event
and the calls made on the seat. Binding execution is a TODO in the source, so
`handled` keeps its first value `false`. -/
def handle_keyboard_key (lib : xkb_lib) (keyboard : sway_keyboard)
    (wlr_device : wlr_input_device) (event : wlr_event_keyboard_key) :
    sway_keyboard × List seat_call :=
  let keycode := (event.keycode + 8) % UINT32_MOD
  let handled := false
  let translated := keyboard_keysyms_translated lib wlr_device keycode
  let keyboard := { keyboard with
    pressed_keysyms_translated :=
      pressed_keysyms_update keyboard.pressed_keysyms_translated translated.1 event.state }
  let raw := keyboard_keysyms_raw lib wlr_device keycode
  let keyboard := { keyboard with
    pressed_keysyms_raw :=
      pressed_keysyms_update keyboard.pressed_keysyms_raw raw.1 event.state }
  if !handled then
    (keyboard,
      [seat_call.wlr_seat_set_keyboard wlr_device.id,
       seat_call.wlr_seat_keyboard_notify_key event.time_msec event.keycode event.state])
  else
    (keyboard, [])

/-- The function `sway_keyboard_create`: `calloc` gives a zeroed structure, so
the keymap is `NULL` and every slot of both arrays is 0, which is
`XKB_KEY_NoSymbol`; the two listener links are made empty lists. When the
allocation fails the result is `NULL`. -/
def sway_keyboard_create (calloc_ok : Bool) : Option sway_keyboard :=
  if !calloc_ok then none
  else some {
    keymap := none
    keyboard_key_linked := false
    keyboard_modifiers_linked := false
    pressed_keysyms_translated := List.replicate SWAY_KEYBOARD_PRESSED_KEYSYMS_CAP 0
    pressed_keysyms_raw := List.replicate SWAY_KEYBOARD_PRESSED_KEYSYMS_CAP 0 }

/-! ## Sequences of events and of array operations -/

/-- A key event as it reaches the handler: the state of the wlroots device at
that moment, and the event. -/
abbrev key_input := wlr_input_device × wlr_event_keyboard_key

/-- The keyboard after a sequence of key events, handled in order. -/
def handle_keyboard_keys (lib : xkb_lib) (keyboard : sway_keyboard) :
    List key_input → sway_keyboard
  | [] => keyboard
  | (wlr_device, event) :: rest =>
    handle_keyboard_keys lib (handle_keyboard_key lib keyboard wlr_device event).1 rest

/-- One call on a pressed-keysym array. -/
inductive pressed_call where
  | add (keysym : Nat)
  | remove (keysym : Nat)
  | update (keysyms : List Nat) (state : wlr_key_state)
  deriving DecidableEq, Repr

/-- The array after one call. -/
def pressed_call.apply (pressed_keysyms : List Nat) : pressed_call → List Nat
  | pressed_call.add keysym => pressed_keysyms_add pressed_keysyms keysym
  | pressed_call.remove keysym => pressed_keysyms_remove pressed_keysyms keysym
  | pressed_call.update keysyms state => pressed_keysyms_update pressed_keysyms keysyms state

/-- The array after a sequence of calls, made in order. -/
def pressed_calls (pressed_keysyms : List Nat) (calls : List pressed_call) : List Nat :=
  calls.foldl pressed_call.apply pressed_keysyms

/-- The array after `pressed_keysyms_add` of each keysym of a list, in order. -/
def pressed_keysyms_add_all (pressed_keysyms : List Nat) (keysyms : List Nat) : List Nat :=
  keysyms.foldl pressed_keysyms_add pressed_keysyms

/-- The empty pressed-keysym array of capacity `cap`: every slot is
`XKB_KEY_NoSymbol`. -/
def pressed_keysyms_empty (cap : Nat) : List Nat :=
  List.replicate cap XKB_KEY_NoSymbol

/-- Both arrays of a keyboard have `SWAY_KEYBOARD_PRESSED_KEYSYMS_CAP` slots
and none of them holds a modifier. -/
def pressed_keysyms_clean (keyboard : sway_keyboard) : Prop :=
  (keyboard.pressed_keysyms_translated.length = SWAY_KEYBOARD_PRESSED_KEYSYMS_CAP
    ∧ ∀ x ∈ keyboard.pressed_keysyms_translated, keysym_is_modifier x = false)
  ∧ (keyboard.pressed_keysyms_raw.length = SWAY_KEYBOARD_PRESSED_KEYSYMS_CAP
    ∧ ∀ x ∈ keyboard.pressed_keysyms_raw, keysym_is_modifier x = false)

/-- Every keysym other than the empty sentinel is in at most one slot. -/
def pressed_keysyms_unique (pressed_keysyms : List Nat) : Prop :=
  ∀ k, k ≠ XKB_KEY_NoSymbol → pressed_keysyms.count k ≤ 1

/-! ## Sample inputs -/

/-- A small keymap for the examples, with xkb keycodes (evdev code plus 8):
key 11 gives `2` (0x32) and with Shift `@` (0x40), consuming Shift (bit 0);
key 38 gives `a` (0x61) and with Shift `A` (0x41), consuming Shift;
key 50 gives `Shift_L` and key 64 gives `Alt_L`; other keys give nothing. -/
def sample_lib : xkb_lib where
  wlr_keyboard_get_modifiers := fun kb => kb.mods
  xkb_state_key_get_consumed_mods2 := fun _ keycode =>
    if keycode = 11 ∨ keycode = 38 then 1 else 0
  xkb_state_key_get_syms := fun kb keycode =>
    if keycode = 11 then (if kb.mods % 2 = 1 then [0x40] else [0x32])
    else if keycode = 38 then (if kb.mods % 2 = 1 then [0x41] else [0x61])
    else if keycode = 50 then [XKB_KEY_Shift_L]
    else if keycode = 64 then [XKB_KEY_Alt_L]
    else []
  xkb_state_key_get_layout := fun _ layout _ => layout
  xkb_keymap_key_get_syms_by_level := fun _ keycode _ level =>
    if level ≠ 0 then []
    else if keycode = 11 then [0x32]
    else if keycode = 38 then [0x61]
    else if keycode = 50 then [XKB_KEY_Shift_L]
    else if keycode = 64 then [XKB_KEY_Alt_L]
    else []

/-- The sample device with the given held modifiers (bit 0 Shift, bit 3 Alt). -/
def sample_device (mods : Nat) : wlr_input_device :=
  { id := 1, keyboard := { keymap := 0, mods := mods, layout := 0 } }

/-- The keyboard right after a successful `sway_keyboard_create`. -/
def sample_keyboard : sway_keyboard :=
  { keymap := none
    keyboard_key_linked := false
    keyboard_modifiers_linked := false
    pressed_keysyms_translated := List.replicate 32 0
    pressed_keysyms_raw := List.replicate 32 0 }

/-- Sample events: press Shift_L (evdev 42), press `2` (evdev 3) with Shift
held, release Shift_L, release `2` with no modifier held. -/
def sample_inputs : List key_input :=
  [ (sample_device 0, { time_msec := 100, keycode := 42, state := wlr_key_state.WLR_KEY_PRESSED }),
    (sample_device 1, { time_msec := 110, keycode := 3, state := wlr_key_state.WLR_KEY_PRESSED }),
    (sample_device 1, { time_msec := 120, keycode := 42, state := wlr_key_state.WLR_KEY_RELEASED }),
    (sample_device 0, { time_msec := 130, keycode := 3, state := wlr_key_state.WLR_KEY_RELEASED }) ]

/-- Forty pairwise distinct keysyms that are not modifiers: 97 (`a`) to 136. -/
def sample_forty_keysyms : List Nat := List.range' 97 40

/-- An array of 32 slots holding `a` (97) in slot 0 and nothing else. -/
def sample_pressed_a : List Nat := 97 :: List.replicate 31 0

/-- Sample calls on an array: add `a`, add `b`, add `a` again, release `a`
and `c` through an update, press `a`, Shift_L and `c` through an update. -/
def sample_calls : List pressed_call :=
  [ pressed_call.add 97, pressed_call.add 98, pressed_call.add 97,
    pressed_call.update [97, 99] wlr_key_state.WLR_KEY_RELEASED,
    pressed_call.update [97, XKB_KEY_Shift_L, 99] wlr_key_state.WLR_KEY_PRESSED ]

/-! ## Configuration -/

/-- The members of `struct input_config` that `sway_keyboard_configure` reads
(the declaration is in `sway/config.h`); `none` is a `NULL` string. -/
structure input_config where
  xkb_layout : Option String
  xkb_model : Option String
  xkb_options : Option String
  xkb_rules : Option String
  xkb_variant : Option String
  deriving DecidableEq, Repr

/-- The xkbcommon `struct xkb_rule_names`; `none` is a `NULL` string. -/
structure xkb_rule_names where
  rules : Option String
  model : Option String
  layout : Option String
  variant : Option String
  options : Option String
  deriving DecidableEq, Repr

/-- What `sway_keyboard_configure` gets from outside this repository: the
process environment, whether `xkb_context_new` returns a context, and the
keymap `xkb_keymap_new_from_names` compiles from rule names (`none` for
`NULL`). -/
structure configure_env where
  getenv : String → Option String
  xkb_context_new : Bool
  xkb_keymap_new_from_names : xkb_rule_names → Option Nat

/-- The two listeners of a keyboard. -/
inductive keyboard_listener where
  | keyboard_key
  | keyboard_modifiers
  deriving DecidableEq, Repr

/-- A call made by `sway_keyboard_configure`, in the order of the source. For
`wl_signal_add` the signal is `events.key` or `events.modifiers` of the device,
according to the listener. -/
inductive configure_call where
  | sway_assert_failed (message : String)
  | sway_log (message : String)
  | xkb_context_unref
  | xkb_keymap_unref (keymap : Option Nat)
  | wlr_keyboard_set_keymap (device : Nat) (keymap : Nat)
  | wlr_keyboard_set_repeat_info (device : Nat) (rate : Nat) (delay : Nat)
  | wlr_seat_set_keyboard (device : Nat)
  | wl_list_remove (listener : keyboard_listener)
  | wl_signal_add (device : Nat) (listener : keyboard_listener)
  deriving DecidableEq, Repr

/-- The rule names `sway_keyboard_configure` builds: each field comes from the
input configuration when that exists and has the field, and from the
environment otherwise. -/
def sway_keyboard_rule_names (env : configure_env) (config : Option input_config) :
    xkb_rule_names :=
  { layout :=
      match config.bind (fun c => c.xkb_layout) with
      | some v => some v
      | none => env.getenv "XKB_DEFAULT_LAYOUT"
    model :=
      match config.bind (fun c => c.xkb_model) with
      | some v => some v
      | none => env.getenv "XKB_DEFAULT_MODEL"
    options :=
      match config.bind (fun c => c.xkb_options) with
      | some v => some v
      | none => env.getenv "XKB_DEFAULT_OPTIONS"
    rules :=
      match config.bind (fun c => c.xkb_rules) with
      | some v => some v
      | none => env.getenv "XKB_DEFAULT_RULES"
    variant :=
      match config.bind (fun c => c.xkb_variant) with
      | some v => some v
      | none => env.getenv "XKB_DEFAULT_VARIANT" }

/-- The function `sway_keyboard_configure`. Returns the keyboard afterwards and
the calls made. It returns early when no xkb context can be created and when
the keymap does not compile. -/
def sway_keyboard_configure (env : configure_env) (keyboard : sway_keyboard)
    (config : Option input_config) (wlr_device : wlr_input_device) :
    sway_keyboard × List configure_call :=
  let rules := sway_keyboard_rule_names env config
  if !env.xkb_context_new then
    (keyboard, [configure_call.sway_assert_failed "cannot create XKB context"])
  else
    match env.xkb_keymap_new_from_names rules with
    | none =>
      (keyboard,
        [configure_call.sway_log "cannot configure keyboard: keymap does not exist",
         configure_call.xkb_context_unref])
    | some keymap =>
      ({ keyboard with
          keymap := some keymap
          keyboard_key_linked := true
          keyboard_key_notify := some listener_notify.handle_keyboard_key
          keyboard_modifiers_linked := true
          keyboard_modifiers_notify := some listener_notify.handle_keyboard_modifiers },
        [configure_call.xkb_keymap_unref keyboard.keymap,
         configure_call.wlr_keyboard_set_keymap wlr_device.id keymap,
         configure_call.wlr_keyboard_set_repeat_info wlr_device.id 25 600,
         configure_call.xkb_context_unref,
         configure_call.wlr_seat_set_keyboard wlr_device.id,
         configure_call.wl_list_remove keyboard_listener.keyboard_key,
         configure_call.wl_signal_add wlr_device.id keyboard_listener.keyboard_key,
         configure_call.wl_list_remove keyboard_listener.keyboard_modifiers,
         configure_call.wl_signal_add wlr_device.id keyboard_listener.keyboard_modifiers])

/-- An environment in which the rule names `no-such-rules` do not compile and
any other rule names compile to the keymap 7. -/
def sample_env : configure_env where
  getenv := fun _ => none
  xkb_context_new := true
  xkb_keymap_new_from_names := fun names =>
    if names.rules = some "no-such-rules" then none else some 7

/-- An input configuration with the rules `no-such-rules` and nothing else. -/
def sample_bad_config : input_config :=
  { xkb_layout := none, xkb_model := none, xkb_options := none,
    xkb_rules := some "no-such-rules", xkb_variant := none }

/-! ## Keys that are down -/

/-- The keysyms of a resolver result that a pressed-set tracks: those that are
neither modifiers nor NoSymbol. -/
def tracked_keysyms (keysyms : List Nat) : List Nat :=
  keysyms.filter (fun k => !keysym_is_modifier k && decide (k ≠ XKB_KEY_NoSymbol))

/-- The keysyms `handle_keyboard_key` gets from `keyboard_keysyms_translated`
for an event, in the state of the device at the event. -/
def event_keysyms_translated (lib : xkb_lib) (input : key_input) : List Nat :=
  (keyboard_keysyms_translated lib input.1 ((input.2.keycode + 8) % UINT32_MOD)).1

/-- The keysyms `handle_keyboard_key` gets from `keyboard_keysyms_raw` for an
event, in the state of the device at the event. -/
def event_keysyms_raw (lib : xkb_lib) (input : key_input) : List Nat :=
  (keyboard_keysyms_raw lib input.1 ((input.2.keycode + 8) % UINT32_MOD)).1

/-- The keys that are down after one more event, each as its keycode with the
keysyms it was pressed as. A press records the key of the event with the
keysyms the press resolves to (a key pressed again while it is down is recorded
once more); a release drops every record of the key of the event. -/
def keys_held_step (resolve : key_input → List Nat) (held : List (Nat × List Nat))
    (input : key_input) : List (Nat × List Nat) :=
  if input.2.state = wlr_key_state.WLR_KEY_PRESSED then
    (input.2.keycode, resolve input) :: held
  else held.filter (fun e => e.1 ≠ input.2.keycode)

/-- The keys that are down after a sequence of events, when `held` were down
before it. -/
def keys_held_from (resolve : key_input → List Nat) (held : List (Nat × List Nat))
    (inputs : List key_input) : List (Nat × List Nat) :=
  inputs.foldl (keys_held_step resolve) held

/-- The keys that are down after a sequence of events on a keyboard with no key
down at the start. -/
def keys_held (resolve : key_input → List Nat) (inputs : List key_input) :
    List (Nat × List Nat) :=
  keys_held_from resolve [] inputs

/-- The tracked keysyms that the keys that are down were pressed as. -/
def held_keysyms (held : List (Nat × List Nat)) : List Nat :=
  held.flatMap (fun e => tracked_keysyms e.2)

/-- What an event needs for the array to stay exact, with `held` the keys down
when the event arrives and `cap` the capacity.
At a press: the keys then down were pressed as at most `cap` distinct tracked
keysyms in all.
At a release: no tracked keysym that the release resolves to is one that
another key still down was pressed as; and every tracked keysym that a key
down was pressed as is among those the release resolves to, or is one that a
key still down was pressed as. -/
def event_trackable (cap : Nat) (resolve : key_input → List Nat)
    (held : List (Nat × List Nat)) (input : key_input) : Prop :=
  if input.2.state = wlr_key_state.WLR_KEY_PRESSED then
    (held_keysyms (keys_held_step resolve held input)).dedup.length ≤ cap
  else
    (∀ k ∈ tracked_keysyms (resolve input),
        k ∉ held_keysyms (keys_held_step resolve held input))
    ∧ (∀ k ∈ held_keysyms held,
        k ∈ tracked_keysyms (resolve input)
          ∨ k ∈ held_keysyms (keys_held_step resolve held input))

/-- Every event of the sequence is trackable when it arrives, starting with
the keys `held` down. -/
def events_trackable (cap : Nat) (resolve : key_input → List Nat) :
    List (Nat × List Nat) → List key_input → Prop
  | _, [] => True
  | held, input :: rest =>
    event_trackable cap resolve held input
      ∧ events_trackable cap resolve (keys_held_step resolve held input) rest

/-- The array of one track after a sequence of events, when the event `input`
resolves to the keysyms `resolve input`. -/
def pressed_keysyms_after (resolve : key_input → List Nat) (pressed_keysyms : List Nat)
    (inputs : List key_input) : List Nat :=
  inputs.foldl (fun s input => pressed_keysyms_update s (resolve input) input.2.state)
    pressed_keysyms

/-- The non-empty slots of the array hold exactly the tracked keysyms that the
keys that are down were pressed as. -/
def tracks_exactly (pressed_keysyms : List Nat) (held : List (Nat × List Nat)) : Prop :=
  ∀ k, k ≠ XKB_KEY_NoSymbol → (k ∈ pressed_keysyms ↔ k ∈ held_keysyms held)

/-- A keymap in which the keys 38 and 39 both give `a` (0x61), whatever the
modifiers; other keys give nothing. -/
def sample_twin_lib : xkb_lib where
  wlr_keyboard_get_modifiers := fun kb => kb.mods
  xkb_state_key_get_consumed_mods2 := fun _ _ => 0
  xkb_state_key_get_syms := fun _ keycode =>
    if keycode = 38 ∨ keycode = 39 then [0x61] else []
  xkb_state_key_get_layout := fun _ layout _ => layout
  xkb_keymap_key_get_syms_by_level := fun _ keycode _ level =>
    if level = 0 ∧ (keycode = 38 ∨ keycode = 39) then [0x61] else []

/-- Sample events on the twin keymap: press key 38 (evdev 30), press key 39
(evdev 31), release key 38. -/
def sample_twin_inputs : List key_input :=
  [ (sample_device 0, { time_msec := 100, keycode := 30, state := wlr_key_state.WLR_KEY_PRESSED }),
    (sample_device 0, { time_msec := 110, keycode := 31, state := wlr_key_state.WLR_KEY_PRESSED }),
    (sample_device 0, { time_msec := 120, keycode := 30, state := wlr_key_state.WLR_KEY_RELEASED }) ]

/-- Sample events on the twin keymap with the two keys pressed in turn: press
and release key 38 (evdev 30), then press and release key 39 (evdev 31). -/
def sample_twin_in_turn_inputs : List key_input :=
  [ (sample_device 0, { time_msec := 100, keycode := 30, state := wlr_key_state.WLR_KEY_PRESSED }),
    (sample_device 0, { time_msec := 110, keycode := 30, state := wlr_key_state.WLR_KEY_RELEASED }),
    (sample_device 0, { time_msec := 120, keycode := 31, state := wlr_key_state.WLR_KEY_PRESSED }),
    (sample_device 0, { time_msec := 130, keycode := 31, state := wlr_key_state.WLR_KEY_RELEASED }) ]

/-- Sample events on the sample keymap, typing `a` and then `A`: press and
release `a` (evdev 30) with no modifier held, press Shift_L (evdev 42), press
and release `a` with Shift held, release Shift_L. -/
def sample_shift_inputs : List key_input :=
  [ (sample_device 0, { time_msec := 100, keycode := 30, state := wlr_key_state.WLR_KEY_PRESSED }),
    (sample_device 0, { time_msec := 110, keycode := 30, state := wlr_key_state.WLR_KEY_RELEASED }),
    (sample_device 0, { time_msec := 120, keycode := 42, state := wlr_key_state.WLR_KEY_PRESSED }),
    (sample_device 1, { time_msec := 130, keycode := 30, state := wlr_key_state.WLR_KEY_PRESSED }),
    (sample_device 1, { time_msec := 140, keycode := 30, state := wlr_key_state.WLR_KEY_RELEASED }),
    (sample_device 1, { time_msec := 150, keycode := 42, state := wlr_key_state.WLR_KEY_RELEASED }) ]

/-! ## Basic facts about the scan -/

theorem pressed_keysyms_index_from_eq (i : Nat) (l : List Nat) (k : Nat) :
    pressed_keysyms_index_from i l k
      = if k ∈ l then ((i + l.indexOf k : Nat) : Int) else -1 := by
  induction l generalizing i with
  | nil => simp [pressed_keysyms_index_from]
  | cons x rest ih =>
    by_cases hx : x = k
    · subst hx
      simp [pressed_keysyms_index_from]
    · have hk : ¬ k = x := fun h => hx h.symm
      simp only [pressed_keysyms_index_from, if_neg hx, ih, List.mem_cons, hk, false_or,
        List.indexOf_cons_ne _ hx]
      split
      · congr 1
        omega
      · rfl

theorem pressed_keysyms_index_eq (l : List Nat) (k : Nat) :
    pressed_keysyms_index l k = if k ∈ l then (l.indexOf k : Int) else -1 := by
  simp [pressed_keysyms_index, pressed_keysyms_index_from_eq]

theorem pressed_keysyms_index_neg_iff (l : List Nat) (k : Nat) :
    pressed_keysyms_index l k < 0 ↔ k ∉ l := by
  rw [pressed_keysyms_index_eq]
  split
  · rename_i h
    simp [h]
  · rename_i h
    simp [h]

theorem pressed_keysyms_add_eq (s : List Nat) (k : Nat) :
    pressed_keysyms_add s k
      = if k ∈ s then s
        else if XKB_KEY_NoSymbol ∈ s then s.set (s.indexOf XKB_KEY_NoSymbol) k else s := by
  unfold pressed_keysyms_add
  simp only [pressed_keysyms_index_eq]
  by_cases hk : k ∈ s
  · simp [hk]
  · by_cases h0 : XKB_KEY_NoSymbol ∈ s
    · simp [hk, h0]
    · simp [hk, h0]

theorem pressed_keysyms_remove_eq (s : List Nat) (k : Nat) :
    pressed_keysyms_remove s k
      = if k ∈ s then s.set (s.indexOf k) XKB_KEY_NoSymbol else s := by
  unfold pressed_keysyms_remove
  simp only [pressed_keysyms_index_eq]
  by_cases hk : k ∈ s
  · simp [hk]
  · simp [hk]

theorem pressed_keysyms_add_cons (x : Nat) (s : List Nat) (k : Nat) :
    pressed_keysyms_add (x :: s) k
      = if x = k then x :: s
        else if x = XKB_KEY_NoSymbol ∧ k ∉ s then k :: s
        else x :: pressed_keysyms_add s k := by
  rw [pressed_keysyms_add_eq, pressed_keysyms_add_eq]
  by_cases hx : x = k
  · subst hx
    simp
  · have hk : ¬ k = x := fun h => hx h.symm
    by_cases hks : k ∈ s
    · simp [hx, hk, hks]
    · by_cases hx0 : x = XKB_KEY_NoSymbol
      · subst hx0
        simp [hx, hk, hks]
      · have h0 : ¬ XKB_KEY_NoSymbol = x := fun h => hx0 h.symm
        by_cases h0s : XKB_KEY_NoSymbol ∈ s
        · simp [hx, hk, hks, hx0, h0, h0s, List.indexOf_cons_ne _ hx0]
        · simp [hx, hk, hks, hx0, h0, h0s]

theorem pressed_keysyms_remove_cons (x : Nat) (s : List Nat) (k : Nat) :
    pressed_keysyms_remove (x :: s) k
      = if x = k then XKB_KEY_NoSymbol :: s else x :: pressed_keysyms_remove s k := by
  rw [pressed_keysyms_remove_eq, pressed_keysyms_remove_eq]
  by_cases hx : x = k
  · subst hx
    simp
  · have hk : ¬ k = x := fun h => hx h.symm
    by_cases hks : k ∈ s
    · simp [hx, hk, hks, List.indexOf_cons_ne _ hx]
    · simp [hx, hk, hks]

/-! ## Slots and members after a call -/

theorem pressed_keysyms_add_length (s : List Nat) (k : Nat) :
    (pressed_keysyms_add s k).length = s.length := by
  rw [pressed_keysyms_add_eq]
  split
  · rfl
  · split
    · simp
    · rfl

theorem pressed_keysyms_remove_length (s : List Nat) (k : Nat) :
    (pressed_keysyms_remove s k).length = s.length := by
  rw [pressed_keysyms_remove_eq]
  split
  · simp
  · rfl

theorem pressed_keysyms_update_length (s : List Nat) (ks : List Nat) (st : wlr_key_state) :
    (pressed_keysyms_update s ks st).length = s.length := by
  induction ks generalizing s with
  | nil => rfl
  | cons k rest ih =>
    simp only [pressed_keysyms_update]
    split
    · exact ih s
    · split
      · rw [ih, pressed_keysyms_add_length]
      · rw [ih, pressed_keysyms_remove_length]

theorem mem_pressed_keysyms_add {s : List Nat} {k x : Nat}
    (h : x ∈ pressed_keysyms_add s k) : x ∈ s ∨ x = k := by
  rw [pressed_keysyms_add_eq] at h
  split at h
  · exact Or.inl h
  · split at h
    · exact List.mem_or_eq_of_mem_set h
    · exact Or.inl h

theorem mem_pressed_keysyms_remove {s : List Nat} {k x : Nat}
    (h : x ∈ pressed_keysyms_remove s k) : x ∈ s ∨ x = XKB_KEY_NoSymbol := by
  rw [pressed_keysyms_remove_eq] at h
  split at h
  · exact List.mem_or_eq_of_mem_set h
  · exact Or.inl h

/-- A member of the array after `pressed_keysyms_update` was a member before,
or is the empty sentinel, or is a resolved keysym that is not a modifier. -/
theorem mem_pressed_keysyms_update {s ks : List Nat} {st : wlr_key_state} {x : Nat}
    (h : x ∈ pressed_keysyms_update s ks st) :
    x ∈ s ∨ x = XKB_KEY_NoSymbol ∨ (x ∈ ks ∧ keysym_is_modifier x = false) := by
  induction ks generalizing s with
  | nil => exact Or.inl h
  | cons k rest ih =>
    simp only [pressed_keysyms_update] at h
    by_cases hm : keysym_is_modifier k = true
    · rw [if_pos hm] at h
      rcases ih h with h1 | h1 | h1
      · exact Or.inl h1
      · exact Or.inr (Or.inl h1)
      · exact Or.inr (Or.inr ⟨List.mem_cons_of_mem _ h1.1, h1.2⟩)
    · rw [if_neg hm] at h
      have hk : keysym_is_modifier k = false := by simpa using hm
      split at h
      · rcases ih h with h1 | h1 | h1
        · rcases mem_pressed_keysyms_add h1 with h2 | h2
          · exact Or.inl h2
          · exact Or.inr (Or.inr ⟨by simp [h2], by rw [h2]; exact hk⟩)
        · exact Or.inr (Or.inl h1)
        · exact Or.inr (Or.inr ⟨List.mem_cons_of_mem _ h1.1, h1.2⟩)
      · rcases ih h with h1 | h1 | h1
        · rcases mem_pressed_keysyms_remove h1 with h2 | h2
          · exact Or.inl h2
          · exact Or.inr (Or.inl h2)
        · exact Or.inr (Or.inl h1)
        · exact Or.inr (Or.inr ⟨List.mem_cons_of_mem _ h1.1, h1.2⟩)

theorem keysym_is_modifier_NoSymbol : keysym_is_modifier XKB_KEY_NoSymbol = false := by
  decide

/-- The function `pressed_keysyms_update` keeps an array free of modifiers. -/
theorem pressed_keysyms_update_no_modifier (s ks : List Nat) (st : wlr_key_state)
    (hs : ∀ x ∈ s, keysym_is_modifier x = false) :
    ∀ x ∈ pressed_keysyms_update s ks st, keysym_is_modifier x = false := by
  intro x hx
  rcases mem_pressed_keysyms_update hx with h | h | h
  · exact hs x h
  · rw [h]
    exact keysym_is_modifier_NoSymbol
  · exact h.2

theorem sway_keyboard_create_clean {keyboard : sway_keyboard} {ok : Bool}
    (h : sway_keyboard_create ok = some keyboard) : pressed_keysyms_clean keyboard := by
  unfold sway_keyboard_create at h
  cases ok with
  | false => simp at h
  | true =>
    simp only [Bool.not_true, Bool.false_eq_true, if_false, Option.some.injEq] at h
    subst h
    refine ⟨⟨by simp, ?_⟩, ⟨by simp, ?_⟩⟩
    · intro x hx
      rw [List.eq_of_mem_replicate hx]
      decide
    · intro x hx
      rw [List.eq_of_mem_replicate hx]
      decide

theorem handle_keyboard_key_clean (lib : xkb_lib) (keyboard : sway_keyboard)
    (wlr_device : wlr_input_device) (event : wlr_event_keyboard_key)
    (h : pressed_keysyms_clean keyboard) :
    pressed_keysyms_clean (handle_keyboard_key lib keyboard wlr_device event).1 := by
  obtain ⟨⟨ht, ht2⟩, ⟨hr, hr2⟩⟩ := h
  refine ⟨⟨?_, ?_⟩, ⟨?_, ?_⟩⟩
  · simpa [handle_keyboard_key, pressed_keysyms_update_length] using ht
  · simpa [handle_keyboard_key] using pressed_keysyms_update_no_modifier _ _ _ ht2
  · simpa [handle_keyboard_key, pressed_keysyms_update_length] using hr
  · simpa [handle_keyboard_key] using pressed_keysyms_update_no_modifier _ _ _ hr2

theorem handle_keyboard_keys_clean (lib : xkb_lib) (keyboard : sway_keyboard)
    (inputs : List key_input) (h : pressed_keysyms_clean keyboard) :
    pressed_keysyms_clean (handle_keyboard_keys lib keyboard inputs) := by
  induction inputs generalizing keyboard with
  | nil => exact h
  | cons input rest ih =>
    obtain ⟨wlr_device, event⟩ := input
    exact ih _ (handle_keyboard_key_clean lib keyboard wlr_device event h)

/-! ## Counting the occupied slots -/

theorem pressed_keysyms_length_foldl (s : List Nat) (n : Nat) :
    s.foldl (fun n x => if x ≠ XKB_KEY_NoSymbol then n + 1 else n) n
      = n + pressed_keysyms_length s := by
  unfold pressed_keysyms_length
  induction s generalizing n with
  | nil => rfl
  | cons x rest ih =>
    simp only [List.foldl_cons]
    rw [ih, ih (if x ≠ XKB_KEY_NoSymbol then 0 + 1 else 0)]
    split <;> omega

theorem pressed_keysyms_length_nil : pressed_keysyms_length [] = 0 := rfl

theorem pressed_keysyms_length_cons (x : Nat) (s : List Nat) :
    pressed_keysyms_length (x :: s)
      = (if x = XKB_KEY_NoSymbol then 0 else 1) + pressed_keysyms_length s := by
  have h := pressed_keysyms_length_foldl s (if x ≠ XKB_KEY_NoSymbol then 0 + 1 else 0)
  unfold pressed_keysyms_length at h ⊢
  simp only [List.foldl_cons]
  rw [h]
  by_cases hx : x = XKB_KEY_NoSymbol <;> simp [hx]

theorem pressed_keysyms_length_le (s : List Nat) : pressed_keysyms_length s ≤ s.length := by
  induction s with
  | nil => simp [pressed_keysyms_length_nil]
  | cons x rest ih =>
    rw [pressed_keysyms_length_cons, List.length_cons]
    split <;> omega

/-- The array is full exactly when no slot holds the empty sentinel. -/
theorem pressed_keysyms_length_eq_iff (s : List Nat) :
    pressed_keysyms_length s = s.length ↔ XKB_KEY_NoSymbol ∉ s := by
  induction s with
  | nil => simp [pressed_keysyms_length_nil]
  | cons x rest ih =>
    rw [pressed_keysyms_length_cons, List.length_cons, List.mem_cons]
    have hle := pressed_keysyms_length_le rest
    by_cases hx : x = XKB_KEY_NoSymbol
    · simp only [hx, if_true, true_or, not_true_eq_false, iff_false]
      omega
    · have hx2 : ¬ XKB_KEY_NoSymbol = x := fun h => hx h.symm
      simp only [hx, hx2, if_false, false_or]
      rw [← ih]
      omega

theorem pressed_keysyms_length_empty (cap : Nat) :
    pressed_keysyms_length (pressed_keysyms_empty cap) = 0 := by
  induction cap with
  | zero => rfl
  | succ n ih =>
    have h : pressed_keysyms_empty (n + 1) = XKB_KEY_NoSymbol :: pressed_keysyms_empty n := by
      simp [pressed_keysyms_empty, List.replicate_succ]
    rw [h, pressed_keysyms_length_cons, ih]
    simp

/-- On a full array `pressed_keysyms_add` changes nothing. -/
theorem pressed_keysyms_add_full (s : List Nat) (k : Nat) (h : XKB_KEY_NoSymbol ∉ s) :
    pressed_keysyms_add s k = s := by
  rw [pressed_keysyms_add_eq]
  simp [h]

theorem pressed_keysyms_add_mem (s : List Nat) (k : Nat) (h : k ∈ s) :
    pressed_keysyms_add s k = s := by
  rw [pressed_keysyms_add_eq]
  simp [h]

/-- Adding the empty sentinel changes nothing. -/
theorem pressed_keysyms_add_NoSymbol (s : List Nat) :
    pressed_keysyms_add s XKB_KEY_NoSymbol = s := by
  rw [pressed_keysyms_add_eq]
  by_cases h : XKB_KEY_NoSymbol ∈ s <;> simp [h]

/-- Adding an absent keysym to an array with an empty slot fills one slot. -/
theorem pressed_keysyms_length_add (s : List Nat) (k : Nat) (hk : k ≠ XKB_KEY_NoSymbol)
    (hks : k ∉ s) (h0 : XKB_KEY_NoSymbol ∈ s) :
    pressed_keysyms_length (pressed_keysyms_add s k) = pressed_keysyms_length s + 1 := by
  induction s with
  | nil => simp at h0
  | cons x rest ih =>
    rw [List.mem_cons, not_or] at hks
    have hxk : ¬ x = k := fun h => hks.1 h.symm
    rw [pressed_keysyms_add_cons, if_neg hxk]
    by_cases hx0 : x = XKB_KEY_NoSymbol
    · rw [if_pos ⟨hx0, hks.2⟩, pressed_keysyms_length_cons, pressed_keysyms_length_cons,
        if_neg hk, if_pos hx0]
      omega
    · have h0r : XKB_KEY_NoSymbol ∈ rest := by
        rcases List.mem_cons.1 h0 with h | h
        · exact absurd h.symm hx0
        · exact h
      rw [if_neg (fun h => hx0 h.1), pressed_keysyms_length_cons, pressed_keysyms_length_cons,
        ih hks.2 h0r]
      omega

theorem pressed_keysyms_add_all_nil (s : List Nat) : pressed_keysyms_add_all s [] = s := rfl

theorem pressed_keysyms_add_all_cons (s : List Nat) (k : Nat) (ks : List Nat) :
    pressed_keysyms_add_all s (k :: ks)
      = pressed_keysyms_add_all (pressed_keysyms_add s k) ks := rfl

theorem pressed_keysyms_add_all_append (s : List Nat) (ks ks2 : List Nat) :
    pressed_keysyms_add_all s (ks ++ ks2)
      = pressed_keysyms_add_all (pressed_keysyms_add_all s ks) ks2 := by
  simp [pressed_keysyms_add_all, List.foldl_append]

theorem pressed_keysyms_add_all_length (s : List Nat) (ks : List Nat) :
    (pressed_keysyms_add_all s ks).length = s.length := by
  induction ks generalizing s with
  | nil => rfl
  | cons k rest ih => rw [pressed_keysyms_add_all_cons, ih, pressed_keysyms_add_length]

theorem pressed_keysyms_add_all_full (s : List Nat) (ks : List Nat)
    (h : XKB_KEY_NoSymbol ∉ s) : pressed_keysyms_add_all s ks = s := by
  induction ks with
  | nil => rfl
  | cons k rest ih => rw [pressed_keysyms_add_all_cons, pressed_keysyms_add_full s k h, ih]

theorem mem_pressed_keysyms_add_all {s ks : List Nat} {x : Nat}
    (h : x ∈ pressed_keysyms_add_all s ks) : x ∈ s ∨ x ∈ ks := by
  induction ks generalizing s with
  | nil => exact Or.inl h
  | cons k rest ih =>
    rw [pressed_keysyms_add_all_cons] at h
    rcases ih h with h1 | h1
    · rcases mem_pressed_keysyms_add h1 with h2 | h2
      · exact Or.inl h2
      · exact Or.inr (by simp [h2])
    · exact Or.inr (List.mem_cons_of_mem _ h1)

/-- Adding pairwise distinct keysyms that are not yet in the array fills one
slot for each keysym other than the sentinel, until the array is full. -/
theorem pressed_keysyms_length_add_all (s : List Nat) (ks : List Nat) (hnd : ks.Nodup)
    (hnew : ∀ k ∈ ks, k ≠ XKB_KEY_NoSymbol → k ∉ s) :
    pressed_keysyms_length (pressed_keysyms_add_all s ks)
      = min s.length
          (pressed_keysyms_length s + (ks.filter (fun k => k ≠ XKB_KEY_NoSymbol)).length) := by
  induction ks generalizing s with
  | nil =>
    have := pressed_keysyms_length_le s
    simp only [pressed_keysyms_add_all_nil, List.filter_nil, List.length_nil]
    omega
  | cons k rest ih =>
    rw [List.nodup_cons] at hnd
    rw [pressed_keysyms_add_all_cons]
    by_cases hk : k = XKB_KEY_NoSymbol
    · rw [hk, pressed_keysyms_add_NoSymbol, ih s hnd.2
        (fun x hx => hnew x (List.mem_cons_of_mem _ hx))]
      simp
    · have hks : k ∉ s := hnew k (List.mem_cons_self _ _) hk
      by_cases h0 : XKB_KEY_NoSymbol ∈ s
      · have hnew2 : ∀ x ∈ rest, x ≠ XKB_KEY_NoSymbol → x ∉ pressed_keysyms_add s k := by
          intro x hx hx0 hmem
          rcases mem_pressed_keysyms_add hmem with h1 | h1
          · exact hnew x (List.mem_cons_of_mem _ hx) hx0 h1
          · exact hnd.1 (h1 ▸ hx)
        rw [ih _ hnd.2 hnew2, pressed_keysyms_add_length,
          pressed_keysyms_length_add s k hk hks h0]
        simp only [hk, List.filter_cons, ne_eq, not_false_eq_true, decide_True, if_true,
          List.length_cons]
        omega
      · rw [pressed_keysyms_add_full s k h0, ih s hnd.2
          (fun x hx => hnew x (List.mem_cons_of_mem _ hx))]
        have hfull := (pressed_keysyms_length_eq_iff s).2 h0
        simp only [hk, List.filter_cons, ne_eq, not_false_eq_true, decide_True, if_true,
          List.length_cons]
        omega

/-- A list of pairwise distinct keysyms holds the sentinel at most once. -/
theorem length_filter_ne_NoSymbol (ks : List Nat) (hnd : ks.Nodup) :
    ks.length ≤ (ks.filter (fun k => k ≠ XKB_KEY_NoSymbol)).length + 1 := by
  induction ks with
  | nil => simp
  | cons k rest ih =>
    rw [List.nodup_cons] at hnd
    by_cases hk : k = XKB_KEY_NoSymbol
    · have hrest : rest.filter (fun k => k ≠ XKB_KEY_NoSymbol) = rest := by
        rw [List.filter_eq_self]
        intro x hx
        have : x ≠ XKB_KEY_NoSymbol := fun h => hnd.1 (hk ▸ h ▸ hx)
        simpa using this
      rw [List.filter_cons_of_neg (by simpa using hk), hrest, List.length_cons]
    · have := ih hnd.2
      rw [List.filter_cons_of_pos (by simpa using hk), List.length_cons, List.length_cons]
      omega

/-! ## Add followed by remove, and add twice -/

/-- Removing the empty sentinel changes nothing. -/
theorem pressed_keysyms_remove_NoSymbol (s : List Nat) :
    pressed_keysyms_remove s XKB_KEY_NoSymbol = s := by
  induction s with
  | nil => rfl
  | cons x rest ih =>
    rw [pressed_keysyms_remove_cons]
    split
    · rename_i h
      rw [h]
    · rw [ih]

theorem pressed_keysyms_remove_not_mem (s : List Nat) (k : Nat) (h : k ∉ s) :
    pressed_keysyms_remove s k = s := by
  rw [pressed_keysyms_remove_eq]
  simp [h]

/-- Removing a keysym right after adding it restores an array that did not
hold it. -/
theorem pressed_keysyms_remove_add_not_mem (s : List Nat) (k : Nat) (hks : k ∉ s) :
    pressed_keysyms_remove (pressed_keysyms_add s k) k = s := by
  induction s with
  | nil => rfl
  | cons x rest ih =>
    rw [List.mem_cons, not_or] at hks
    have hxk : ¬ x = k := fun h => hks.1 h.symm
    rw [pressed_keysyms_add_cons, if_neg hxk]
    by_cases hx0 : x = XKB_KEY_NoSymbol
    · rw [if_pos ⟨hx0, hks.2⟩, pressed_keysyms_remove_cons, if_pos rfl, hx0]
    · rw [if_neg (fun h => hx0 h.1), pressed_keysyms_remove_cons, if_neg hxk, ih hks.2]

/-- Removing a keysym other than the sentinel from an array that holds it
changes the array. -/
theorem pressed_keysyms_remove_mem_ne (s : List Nat) (k : Nat) (hk : k ≠ XKB_KEY_NoSymbol)
    (hks : k ∈ s) : pressed_keysyms_remove s k ≠ s := by
  induction s with
  | nil => simp at hks
  | cons x rest ih =>
    rw [pressed_keysyms_remove_cons]
    by_cases hxk : x = k
    · rw [if_pos hxk]
      intro h
      injection h with h1 _
      exact hk (hxk ▸ h1.symm)
    · rw [if_neg hxk]
      have hr : k ∈ rest := by
        rcases List.mem_cons.1 hks with h | h
        · exact absurd h.symm hxk
        · exact h
      intro h
      injection h with _ h2
      exact ih hr h2

/-- After `pressed_keysyms_add` the keysym is in the array, when it was there
before or a slot was empty. -/
theorem mem_pressed_keysyms_add_self (s : List Nat) (k : Nat)
    (h : k ∈ s ∨ XKB_KEY_NoSymbol ∈ s) : k ∈ pressed_keysyms_add s k := by
  rw [pressed_keysyms_add_eq]
  by_cases hks : k ∈ s
  · rw [if_pos hks]
    exact hks
  · have h0 : XKB_KEY_NoSymbol ∈ s := h.resolve_left hks
    rw [if_neg hks, if_pos h0]
    exact (List.mem_set _ _ (List.indexOf_lt_length.2 h0) _)

theorem pressed_keysyms_add_add (s : List Nat) (k : Nat) :
    pressed_keysyms_add (pressed_keysyms_add s k) k = pressed_keysyms_add s k := by
  by_cases h : k ∈ s ∨ XKB_KEY_NoSymbol ∈ s
  · exact pressed_keysyms_add_mem _ k (mem_pressed_keysyms_add_self s k h)
  · rw [not_or] at h
    rw [pressed_keysyms_add_full s k h.2, pressed_keysyms_add_full s k h.2]

/-! ## Uniqueness of the occupied slots -/

theorem pressed_keysyms_unique_empty (cap : Nat) :
    pressed_keysyms_unique (pressed_keysyms_empty cap) := by
  intro k hk
  have : k ∉ pressed_keysyms_empty cap := fun h => hk (List.eq_of_mem_replicate h)
  rw [List.count_eq_zero_of_not_mem this]
  exact Nat.zero_le 1

theorem pressed_keysyms_add_unique (s : List Nat) (k : Nat) (h : pressed_keysyms_unique s) :
    pressed_keysyms_unique (pressed_keysyms_add s k) := by
  rw [pressed_keysyms_add_eq]
  by_cases hks : k ∈ s
  · rw [if_pos hks]
    exact h
  · rw [if_neg hks]
    by_cases h0 : XKB_KEY_NoSymbol ∈ s
    · rw [if_pos h0]
      intro b hb
      have hlt : s.indexOf XKB_KEY_NoSymbol < s.length := List.indexOf_lt_length.2 h0
      have hget : s[s.indexOf XKB_KEY_NoSymbol] = XKB_KEY_NoSymbol := List.getElem_indexOf hlt
      rw [List.count_set _ _ _ _ hlt, hget]
      have hne : (XKB_KEY_NoSymbol == b) = false := by
        simpa using fun h : XKB_KEY_NoSymbol = b => hb h.symm
      rw [hne]
      by_cases hkb : k = b
      · subst hkb
        rw [List.count_eq_zero_of_not_mem hks]
        simp
      · have hkb2 : (k == b) = false := by simpa using hkb
        have := h b hb
        rw [hkb2]
        simpa using this
    · rw [if_neg h0]
      exact h

theorem pressed_keysyms_remove_unique (s : List Nat) (k : Nat) (h : pressed_keysyms_unique s) :
    pressed_keysyms_unique (pressed_keysyms_remove s k) := by
  rw [pressed_keysyms_remove_eq]
  by_cases hks : k ∈ s
  · rw [if_pos hks]
    intro b hb
    have hlt : s.indexOf k < s.length := List.indexOf_lt_length.2 hks
    rw [List.count_set _ _ _ _ hlt]
    have hne : (XKB_KEY_NoSymbol == b) = false := by
      simpa using fun h : XKB_KEY_NoSymbol = b => hb h.symm
    rw [hne]
    have := h b hb
    simp only [Bool.false_eq_true, if_false, Nat.add_zero]
    omega
  · rw [if_neg hks]
    exact h

theorem pressed_keysyms_update_unique (s ks : List Nat) (st : wlr_key_state)
    (h : pressed_keysyms_unique s) : pressed_keysyms_unique (pressed_keysyms_update s ks st) := by
  induction ks generalizing s with
  | nil => exact h
  | cons k rest ih =>
    simp only [pressed_keysyms_update]
    split
    · exact ih s h
    · split
      · exact ih _ (pressed_keysyms_add_unique s k h)
      · exact ih _ (pressed_keysyms_remove_unique s k h)

theorem pressed_calls_unique (s : List Nat) (calls : List pressed_call)
    (h : pressed_keysyms_unique s) : pressed_keysyms_unique (pressed_calls s calls) := by
  induction calls generalizing s with
  | nil => exact h
  | cons c rest ih =>
    have hstep : pressed_keysyms_unique (pressed_call.apply s c) := by
      cases c with
      | add k => exact pressed_keysyms_add_unique s k h
      | remove k => exact pressed_keysyms_remove_unique s k h
      | update ks st => exact pressed_keysyms_update_unique s ks st h
    exact ih _ hstep

/-- A value counted at most once sits at one index only. -/
theorem index_unique_of_count_le_one (s : List Nat) (k : Nat) (h : s.count k ≤ 1)
    (i j : Nat) (hi : s.get? i = some k) (hj : s.get? j = some k) : i = j := by
  induction s generalizing i j with
  | nil => simp at hi
  | cons x rest ih =>
    rw [List.count_cons] at h
    cases i with
    | zero =>
      cases j with
      | zero => rfl
      | succ j2 =>
        simp only [List.get?_cons_zero, Option.some.injEq] at hi
        simp only [List.get?_cons_succ] at hj
        have hmem : k ∈ rest := List.get?_mem hj
        have hpos : 0 < rest.count k := List.count_pos_iff.2 hmem
        simp [hi] at h
        omega
    | succ i2 =>
      cases j with
      | zero =>
        simp only [List.get?_cons_zero, Option.some.injEq] at hj
        simp only [List.get?_cons_succ] at hi
        have hmem : k ∈ rest := List.get?_mem hi
        have hpos : 0 < rest.count k := List.count_pos_iff.2 hmem
        simp [hj] at h
        omega
      | succ j2 =>
        simp only [List.get?_cons_succ] at hi hj
        have : rest.count k ≤ 1 := by omega
        rw [ih this i2 j2 hi hj]

/-! ## Clearing the consumed modifiers -/

/-- Bits of `m & ~c` on 32-bit unsigned values: bit `i` is set exactly when it
is below 32, set in `m` and not set in `c`. -/
theorem testBit_and_not_uint32 (m c i : Nat) :
    ((m % UINT32_MOD) &&& (UINT32_MOD - 1 - c % UINT32_MOD)).testBit i
      = (decide (i < 32) && m.testBit i && !c.testBit i) := by
  have hc : c % 2 ^ 32 < 2 ^ 32 := Nat.mod_lt _ (by decide)
  have hsub : UINT32_MOD - 1 - c % UINT32_MOD = 2 ^ 32 - (c % 2 ^ 32 + 1) := by
    unfold UINT32_MOD
    omega
  rw [hsub, Nat.testBit_and, Nat.testBit_two_pow_sub_succ hc]
  unfold UINT32_MOD
  rw [Nat.testBit_mod_two_pow, Nat.testBit_mod_two_pow]
  cases decide (i < 32) <;> cases m.testBit i <;> cases c.testBit i <;> rfl

/-! ## The first empty slot -/

/-- No slot before the first occurrence of a value holds that value. -/
theorem get?_ne_of_lt_indexOf (s : List Nat) (a j : Nat) (h : j < s.indexOf a) :
    s.get? j ≠ some a := by
  induction s generalizing j with
  | nil => simp
  | cons x rest ih =>
    by_cases hx : x = a
    · rw [List.indexOf_cons_eq _ hx] at h
      omega
    · rw [List.indexOf_cons_ne _ hx] at h
      cases j with
      | zero => simpa using hx
      | succ j2 =>
        rw [List.get?_cons_succ]
        exact ih j2 (by omega)

/-- An update with one keysym that is not a modifier is one add or one remove. -/
theorem pressed_keysyms_update_singleton (s : List Nat) (k : Nat) (st : wlr_key_state)
    (hk : keysym_is_modifier k = false) :
    pressed_keysyms_update s [k] st
      = if st = wlr_key_state.WLR_KEY_PRESSED then pressed_keysyms_add s k
        else pressed_keysyms_remove s k := by
  simp only [pressed_keysyms_update, hk, Bool.false_eq_true, if_false]

/-! ## Membership after add and remove, and the sentinel in resolver results -/

/-- In an array where k is in at most one slot, k is gone after
`pressed_keysyms_remove`. -/
theorem not_mem_pressed_keysyms_remove_self (s : List Nat) (k : Nat)
    (hk : k ≠ XKB_KEY_NoSymbol) (h : s.count k ≤ 1) : k ∉ pressed_keysyms_remove s k := by
  rw [pressed_keysyms_remove_eq]
  by_cases hks : k ∈ s
  · rw [if_pos hks]
    have hlt : s.indexOf k < s.length := List.indexOf_lt_length.2 hks
    have hget : s[s.indexOf k] = k := List.getElem_indexOf hlt
    have hne : (XKB_KEY_NoSymbol == k) = false := by
      simpa using fun h : XKB_KEY_NoSymbol = k => hk h.symm
    have hcount : (s.set (s.indexOf k) XKB_KEY_NoSymbol).count k = 0 := by
      rw [List.count_set _ _ _ _ hlt, hget, hne]
      simp only [beq_self_eq_true, if_true, Bool.false_eq_true, if_false, Nat.add_zero]
      omega
    exact List.count_eq_zero.1 hcount
  · rw [if_neg hks]
    exact hks

/-- A keysym other than k and other than the sentinel is in the array after
`pressed_keysyms_remove` of k exactly when it was in it before. -/
theorem mem_pressed_keysyms_remove_iff_of_ne (s : List Nat) (k x : Nat)
    (hx : x ≠ XKB_KEY_NoSymbol) (hxk : x ≠ k) :
    x ∈ pressed_keysyms_remove s k ↔ x ∈ s := by
  constructor
  · intro h
    rcases mem_pressed_keysyms_remove h with h1 | h1
    · exact h1
    · exact absurd h1 hx
  · intro h
    rw [pressed_keysyms_remove_eq]
    by_cases hks : k ∈ s
    · rw [if_pos hks]
      have hlt : s.indexOf k < s.length := List.indexOf_lt_length.2 hks
      have hget : s[s.indexOf k] = k := List.getElem_indexOf hlt
      have hne : (XKB_KEY_NoSymbol == x) = false := by
        simpa using fun h : XKB_KEY_NoSymbol = x => hx h.symm
      have hne2 : (k == x) = false := by
        simpa using fun h : k = x => hxk h.symm
      have hcount : (s.set (s.indexOf k) XKB_KEY_NoSymbol).count x = s.count x := by
        rw [List.count_set _ _ _ _ hlt, hget, hne, hne2]
        simp
      have hpos : 0 < s.count x := List.count_pos_iff.2 h
      exact List.count_pos_iff.1 (by rw [hcount]; exact hpos)
    · rw [if_neg hks]
      exact h

/-- A keysym of the array other than the sentinel is still in it after
`pressed_keysyms_add`. -/
theorem mem_pressed_keysyms_add_of_mem (s : List Nat) (k x : Nat)
    (hx : x ≠ XKB_KEY_NoSymbol) (h : x ∈ s) : x ∈ pressed_keysyms_add s k := by
  rw [pressed_keysyms_add_eq]
  by_cases hks : k ∈ s
  · rw [if_pos hks]
    exact h
  · rw [if_neg hks]
    by_cases h0 : XKB_KEY_NoSymbol ∈ s
    · rw [if_pos h0]
      have hlt : s.indexOf XKB_KEY_NoSymbol < s.length := List.indexOf_lt_length.2 h0
      have hget : s[s.indexOf XKB_KEY_NoSymbol] = XKB_KEY_NoSymbol := List.getElem_indexOf hlt
      have hne : (XKB_KEY_NoSymbol == x) = false := by
        simpa using fun h : XKB_KEY_NoSymbol = x => hx h.symm
      have hpos : 0 < s.count x := List.count_pos_iff.2 h
      apply List.count_pos_iff.1
      rw [List.count_set _ _ _ _ hlt, hget, hne]
      simp only [Bool.false_eq_true, if_false, Nat.sub_zero]
      omega
    · rw [if_neg h0]
      exact h

/-- The entries of a resolver result that are the sentinel have no effect in
`pressed_keysyms_update`. -/
theorem pressed_keysyms_update_filter_NoSymbol (s ks : List Nat) (st : wlr_key_state) :
    pressed_keysyms_update s ks st
      = pressed_keysyms_update s (ks.filter (fun k => k ≠ XKB_KEY_NoSymbol)) st := by
  induction ks generalizing s with
  | nil => rfl
  | cons k rest ih =>
    by_cases hk : k = XKB_KEY_NoSymbol
    · rw [List.filter_cons_of_neg (by simpa using hk), hk]
      simp only [pressed_keysyms_update, keysym_is_modifier_NoSymbol, Bool.false_eq_true,
        if_false, pressed_keysyms_add_NoSymbol, pressed_keysyms_remove_NoSymbol, ite_self]
      exact ih s
    · rw [List.filter_cons_of_pos (by simpa using hk)]
      simp only [pressed_keysyms_update]
      split
      · exact ih s
      · split
        · exact ih _
        · exact ih _

/-! ## Tracking the keysyms of the keys that are down -/

theorem mem_tracked_keysyms (ks : List Nat) (k : Nat) :
    k ∈ tracked_keysyms ks
      ↔ k ∈ ks ∧ keysym_is_modifier k = false ∧ k ≠ XKB_KEY_NoSymbol := by
  unfold tracked_keysyms
  rw [List.mem_filter]
  simp

theorem pressed_keysyms_length_eq_filter (s : List Nat) :
    pressed_keysyms_length s = (s.filter (fun x => x ≠ XKB_KEY_NoSymbol)).length := by
  induction s with
  | nil => rfl
  | cons x rest ih =>
    rw [pressed_keysyms_length_cons, ih]
    by_cases hx : x = XKB_KEY_NoSymbol
    · rw [List.filter_cons_of_neg (by simpa using hx), if_pos hx]
      omega
    · rw [List.filter_cons_of_pos (by simpa using hx), if_neg hx, List.length_cons]
      omega

theorem nodup_filter_of_unique (s : List Nat) (h : pressed_keysyms_unique s) :
    (s.filter (fun x => x ≠ XKB_KEY_NoSymbol)).Nodup := by
  rw [List.nodup_iff_count_le_one]
  intro a
  by_cases ha : a = XKB_KEY_NoSymbol
  · have : a ∉ s.filter (fun x => x ≠ XKB_KEY_NoSymbol) := by
      intro hmem
      have := (List.mem_filter.1 hmem).2
      simp [ha] at this
    rw [List.count_eq_zero_of_not_mem this]
    exact Nat.zero_le 1
  · rw [List.count_filter (by simpa using ha)]
    exact h a ha

/-- An array whose keysyms are distinct and all lie in a list no longer than
the array, which also holds a keysym that is not in the array, has an empty
slot. -/
theorem exists_empty_slot (s U : List Nat) (k : Nat) (hu : pressed_keysyms_unique s)
    (hsU : ∀ x, x ≠ XKB_KEY_NoSymbol → x ∈ s → x ∈ U) (hkU : k ∈ U) (hks : k ∉ s)
    (hlen : U.length ≤ s.length) : XKB_KEY_NoSymbol ∈ s := by
  by_contra h0
  have hfull := (pressed_keysyms_length_eq_iff s).2 h0
  rw [pressed_keysyms_length_eq_filter] at hfull
  have hnd : (k :: s.filter (fun x => x ≠ XKB_KEY_NoSymbol)).Nodup := by
    rw [List.nodup_cons]
    exact ⟨fun hmem => hks (List.mem_filter.1 hmem).1, nodup_filter_of_unique s hu⟩
  have hsub : (k :: s.filter (fun x => x ≠ XKB_KEY_NoSymbol)) ⊆ U := by
    intro x hx
    rcases List.mem_cons.1 hx with h | h
    · rw [h]
      exact hkU
    · have hx2 := List.mem_filter.1 h
      exact hsU x (by simpa using hx2.2) hx2.1
  have hle := (List.subperm_of_subset hnd hsub).length_le
  rw [List.length_cons] at hle
  omega

theorem mem_pressed_keysyms_add_iff (s : List Nat) (k x : Nat) (hx : x ≠ XKB_KEY_NoSymbol)
    (h : k ∈ s ∨ XKB_KEY_NoSymbol ∈ s) :
    x ∈ pressed_keysyms_add s k ↔ x ∈ s ∨ x = k := by
  constructor
  · exact mem_pressed_keysyms_add
  · rintro (h1 | h1)
    · exact mem_pressed_keysyms_add_of_mem s k x hx h1
    · rw [h1]
      exact mem_pressed_keysyms_add_self s k h

theorem mem_pressed_keysyms_remove_iff (s : List Nat) (k x : Nat)
    (hu : pressed_keysyms_unique s) (hx : x ≠ XKB_KEY_NoSymbol) :
    x ∈ pressed_keysyms_remove s k ↔ x ∈ s ∧ x ≠ k := by
  by_cases hxk : x = k
  · subst hxk
    have := not_mem_pressed_keysyms_remove_self s x hx (hu x hx)
    simp [this]
  · rw [mem_pressed_keysyms_remove_iff_of_ne s k x hx hxk]
    simp [hxk]

/-- After the update for a press the array holds what it held and the tracked
keysyms of the resolver result, when all of them fit in the array. -/
theorem mem_pressed_keysyms_update_pressed (s ks U : List Nat)
    (hu : pressed_keysyms_unique s)
    (hsU : ∀ x, x ≠ XKB_KEY_NoSymbol → x ∈ s → x ∈ U)
    (hkU : ∀ x ∈ tracked_keysyms ks, x ∈ U) (hlen : U.length ≤ s.length)
    (x : Nat) (hx : x ≠ XKB_KEY_NoSymbol) :
    x ∈ pressed_keysyms_update s ks wlr_key_state.WLR_KEY_PRESSED
      ↔ x ∈ s ∨ x ∈ tracked_keysyms ks := by
  induction ks generalizing s with
  | nil => simp [pressed_keysyms_update, tracked_keysyms]
  | cons k rest ih =>
    have hrestU : ∀ y ∈ tracked_keysyms rest, y ∈ U := by
      intro y hy
      apply hkU
      rw [mem_tracked_keysyms] at hy ⊢
      exact ⟨List.mem_cons_of_mem _ hy.1, hy.2⟩
    by_cases hm : keysym_is_modifier k = true
    · simp only [pressed_keysyms_update, hm, if_true]
      rw [ih s hu hsU hrestU hlen, mem_tracked_keysyms, mem_tracked_keysyms, List.mem_cons]
      constructor
      · rintro (h | h)
        · exact Or.inl h
        · exact Or.inr ⟨Or.inr h.1, h.2⟩
      · rintro (h | ⟨h1 | h1, h2⟩)
        · exact Or.inl h
        · rw [h1, hm] at h2
          exact absurd h2.1 (by simp)
        · exact Or.inr ⟨h1, h2⟩
    · have hmf : keysym_is_modifier k = false := by simpa using hm
      simp only [pressed_keysyms_update, hmf, Bool.false_eq_true, if_false, if_true]
      by_cases hk0 : k = XKB_KEY_NoSymbol
      · rw [hk0, pressed_keysyms_add_NoSymbol, ih s hu hsU hrestU hlen, mem_tracked_keysyms,
          mem_tracked_keysyms, List.mem_cons]
        constructor
        · rintro (h | h)
          · exact Or.inl h
          · exact Or.inr ⟨Or.inr h.1, h.2⟩
        · rintro (h | ⟨h1 | h1, h2⟩)
          · exact Or.inl h
          · exact absurd h1 hx
          · exact Or.inr ⟨h1, h2⟩
      · have hkt : k ∈ tracked_keysyms (k :: rest) := by
          rw [mem_tracked_keysyms]
          exact ⟨List.mem_cons_self _ _, hmf, hk0⟩
        have hslot : k ∈ s ∨ XKB_KEY_NoSymbol ∈ s := by
          by_cases hks : k ∈ s
          · exact Or.inl hks
          · exact Or.inr (exists_empty_slot s U k hu hsU (hkU k hkt) hks hlen)
        have hsU2 : ∀ y, y ≠ XKB_KEY_NoSymbol → y ∈ pressed_keysyms_add s k → y ∈ U := by
          intro y hy hmem
          rcases mem_pressed_keysyms_add hmem with h | h
          · exact hsU y hy h
          · rw [h]
            exact hkU k hkt
        rw [ih (pressed_keysyms_add s k) (pressed_keysyms_add_unique s k hu) hsU2 hrestU
          (by rw [pressed_keysyms_add_length]; exact hlen),
          mem_pressed_keysyms_add_iff s k x hx hslot, mem_tracked_keysyms, mem_tracked_keysyms,
          List.mem_cons]
        constructor
        · rintro ((h | h) | h)
          · exact Or.inl h
          · exact Or.inr ⟨Or.inl h, h ▸ hmf, hx⟩
          · exact Or.inr ⟨Or.inr h.1, h.2⟩
        · rintro (h | ⟨h1 | h1, h2⟩)
          · exact Or.inl (Or.inl h)
          · exact Or.inl (Or.inr h1)
          · exact Or.inr ⟨h1, h2⟩

/-- After the update for a release the array holds what it held, less the
tracked keysyms of the resolver result. -/
theorem mem_pressed_keysyms_update_released (s ks : List Nat)
    (hu : pressed_keysyms_unique s) (x : Nat) (hx : x ≠ XKB_KEY_NoSymbol) :
    x ∈ pressed_keysyms_update s ks wlr_key_state.WLR_KEY_RELEASED
      ↔ x ∈ s ∧ x ∉ tracked_keysyms ks := by
  induction ks generalizing s with
  | nil => simp [pressed_keysyms_update, tracked_keysyms]
  | cons k rest ih =>
    by_cases hm : keysym_is_modifier k = true
    · simp only [pressed_keysyms_update, hm, if_true]
      rw [ih s hu, mem_tracked_keysyms, mem_tracked_keysyms, List.mem_cons]
      constructor
      · rintro ⟨h1, h2⟩
        refine ⟨h1, ?_⟩
        rintro ⟨h3 | h3, h4⟩
        · rw [h3, hm] at h4
          exact absurd h4.1 (by simp)
        · exact h2 ⟨h3, h4⟩
      · rintro ⟨h1, h2⟩
        exact ⟨h1, fun h => h2 ⟨Or.inr h.1, h.2⟩⟩
    · have hmf : keysym_is_modifier k = false := by simpa using hm
      have hst : ¬ wlr_key_state.WLR_KEY_RELEASED = wlr_key_state.WLR_KEY_PRESSED := by decide
      simp only [pressed_keysyms_update, hmf, Bool.false_eq_true, if_false, hst]
      rw [ih (pressed_keysyms_remove s k) (pressed_keysyms_remove_unique s k hu),
        mem_pressed_keysyms_remove_iff s k x hu hx, mem_tracked_keysyms, mem_tracked_keysyms,
        List.mem_cons]
      constructor
      · rintro ⟨⟨h1, h2⟩, h3⟩
        refine ⟨h1, ?_⟩
        rintro ⟨h4 | h4, h5⟩
        · exact h2 h4
        · exact h3 ⟨h4, h5⟩
      · rintro ⟨h1, h2⟩
        refine ⟨⟨h1, fun h => h2 ⟨Or.inl h, h ▸ hmf, hx⟩⟩, fun h => h2 ⟨Or.inr h.1, h.2⟩⟩

theorem mem_held_keysyms (held : List (Nat × List Nat)) (k : Nat) :
    k ∈ held_keysyms held ↔ ∃ e ∈ held, k ∈ tracked_keysyms e.2 := by
  unfold held_keysyms
  rw [List.mem_flatMap]

theorem ne_NoSymbol_of_mem_held_keysyms {held : List (Nat × List Nat)} {k : Nat}
    (h : k ∈ held_keysyms held) : k ≠ XKB_KEY_NoSymbol := by
  obtain ⟨e, _, he⟩ := (mem_held_keysyms held k).1 h
  exact ((mem_tracked_keysyms e.2 k).1 he).2.2

theorem mem_held_keysyms_pressed (resolve : key_input → List Nat)
    (held : List (Nat × List Nat)) (input : key_input)
    (hst : input.2.state = wlr_key_state.WLR_KEY_PRESSED) (k : Nat) :
    k ∈ held_keysyms (keys_held_step resolve held input)
      ↔ k ∈ tracked_keysyms (resolve input) ∨ k ∈ held_keysyms held := by
  unfold keys_held_step
  rw [if_pos hst]
  simp [held_keysyms]

theorem mem_held_keysyms_of_released (resolve : key_input → List Nat)
    (held : List (Nat × List Nat)) (input : key_input)
    (hst : ¬ input.2.state = wlr_key_state.WLR_KEY_PRESSED) (k : Nat)
    (h : k ∈ held_keysyms (keys_held_step resolve held input)) : k ∈ held_keysyms held := by
  unfold keys_held_step at h
  rw [if_neg hst] at h
  obtain ⟨e, he, hk⟩ := (mem_held_keysyms _ k).1 h
  exact (mem_held_keysyms held k).2 ⟨e, (List.mem_filter.1 he).1, hk⟩

/-- One event keeps the array exact if and only if the event is trackable. -/
theorem tracks_exactly_step_iff (cap : Nat) (resolve : key_input → List Nat)
    (s : List Nat) (held : List (Nat × List Nat)) (input : key_input)
    (hlen : s.length = cap) (hu : pressed_keysyms_unique s) (h0 : tracks_exactly s held) :
    tracks_exactly (pressed_keysyms_update s (resolve input) input.2.state)
        (keys_held_step resolve held input)
      ↔ event_trackable cap resolve held input := by
  unfold event_trackable
  by_cases hst : input.2.state = wlr_key_state.WLR_KEY_PRESSED
  · rw [if_pos hst]
    constructor
    · intro hex
      have hnd := List.nodup_dedup (held_keysyms (keys_held_step resolve held input))
      have hsub : (held_keysyms (keys_held_step resolve held input)).dedup
          ⊆ pressed_keysyms_update s (resolve input) input.2.state := by
        intro x hx
        have hx2 := List.mem_dedup.1 hx
        exact (hex x (ne_NoSymbol_of_mem_held_keysyms hx2)).2 hx2
      have hle := (List.subperm_of_subset hnd hsub).length_le
      rw [pressed_keysyms_update_length, hlen] at hle
      exact hle
    · intro hcap k hk
      have hsU : ∀ x, x ≠ XKB_KEY_NoSymbol → x ∈ s →
          x ∈ (held_keysyms (keys_held_step resolve held input)).dedup := by
        intro x hx hxs
        rw [List.mem_dedup, mem_held_keysyms_pressed resolve held input hst]
        exact Or.inr ((h0 x hx).1 hxs)
      have hkU : ∀ x ∈ tracked_keysyms (resolve input),
          x ∈ (held_keysyms (keys_held_step resolve held input)).dedup := by
        intro x hx
        rw [List.mem_dedup, mem_held_keysyms_pressed resolve held input hst]
        exact Or.inl hx
      rw [hst, mem_pressed_keysyms_update_pressed s _ _ hu hsU hkU (by rw [hlen]; exact hcap)
        k hk, h0 k hk, mem_held_keysyms_pressed resolve held input hst]
      exact or_comm
  · rw [if_neg hst]
    have hrel : input.2.state = wlr_key_state.WLR_KEY_RELEASED := by
      cases h : input.2.state with
      | WLR_KEY_RELEASED => rfl
      | WLR_KEY_PRESSED => exact absurd h hst
    have hmem : ∀ x, x ≠ XKB_KEY_NoSymbol →
        (x ∈ pressed_keysyms_update s (resolve input) input.2.state
          ↔ x ∈ held_keysyms held ∧ x ∉ tracked_keysyms (resolve input)) := by
      intro x hx
      rw [hrel, mem_pressed_keysyms_update_released s _ hu x hx, h0 x hx]
    constructor
    · intro hex
      constructor
      · intro k hk hk1
        have hk0 : k ≠ XKB_KEY_NoSymbol := ((mem_tracked_keysyms _ k).1 hk).2.2
        exact ((hmem k hk0).1 ((hex k hk0).2 hk1)).2 hk
      · intro k hk
        by_cases hkt : k ∈ tracked_keysyms (resolve input)
        · exact Or.inl hkt
        · have hk0 := ne_NoSymbol_of_mem_held_keysyms hk
          exact Or.inr ((hex k hk0).1 ((hmem k hk0).2 ⟨hk, hkt⟩))
    · rintro ⟨h1, h2⟩ k hk
      rw [hmem k hk]
      constructor
      · rintro ⟨hkh, hkt⟩
        exact (h2 k hkh).resolve_left hkt
      · intro hk1
        exact ⟨mem_held_keysyms_of_released resolve held input hst k hk1,
          fun hkt => h1 k hkt hk1⟩

theorem pressed_keysyms_after_cons (resolve : key_input → List Nat) (s : List Nat)
    (x : key_input) (rest : List key_input) :
    pressed_keysyms_after resolve s (x :: rest)
      = pressed_keysyms_after resolve (pressed_keysyms_update s (resolve x) x.2.state) rest :=
  rfl

theorem keys_held_from_cons (resolve : key_input → List Nat) (held : List (Nat × List Nat))
    (x : key_input) (rest : List key_input) :
    keys_held_from resolve held (x :: rest)
      = keys_held_from resolve (keys_held_step resolve held x) rest :=
  rfl

theorem pressed_keysyms_after_length (resolve : key_input → List Nat) (s : List Nat)
    (inputs : List key_input) : (pressed_keysyms_after resolve s inputs).length = s.length := by
  induction inputs generalizing s with
  | nil => rfl
  | cons x rest ih => rw [pressed_keysyms_after_cons, ih, pressed_keysyms_update_length]

/-- The array is exact after every event of a sequence if and only if every
event of the sequence is trackable when it arrives. -/
theorem tracks_exactly_after_iff (cap : Nat) (resolve : key_input → List Nat)
    (inputs : List key_input) (s : List Nat) (held : List (Nat × List Nat))
    (hlen : s.length = cap) (hu : pressed_keysyms_unique s) (h0 : tracks_exactly s held) :
    (∀ n, n ≤ inputs.length →
        tracks_exactly (pressed_keysyms_after resolve s (inputs.take n))
          (keys_held_from resolve held (inputs.take n)))
      ↔ events_trackable cap resolve held inputs := by
  induction inputs generalizing s held with
  | nil =>
    simp only [events_trackable, iff_true]
    intro n _
    simpa [pressed_keysyms_after, keys_held_from] using h0
  | cons x rest ih =>
    have hstep := tracks_exactly_step_iff cap resolve s held x hlen hu h0
    have hlen1 : (pressed_keysyms_update s (resolve x) x.2.state).length = cap := by
      rw [pressed_keysyms_update_length, hlen]
    have hu1 := pressed_keysyms_update_unique s (resolve x) x.2.state hu
    simp only [events_trackable]
    constructor
    · intro hall
      have h1 : tracks_exactly (pressed_keysyms_update s (resolve x) x.2.state)
          (keys_held_step resolve held x) := by
        have := hall 1 (by simp)
        simpa [pressed_keysyms_after, keys_held_from] using this
      refine ⟨hstep.1 h1, (ih _ _ hlen1 hu1 h1).1 ?_⟩
      intro n hn
      have := hall (n + 1) (by simp; omega)
      rw [List.take_succ_cons, pressed_keysyms_after_cons, keys_held_from_cons] at this
      exact this
    · rintro ⟨hx, hrest⟩ n hn
      have h1 := hstep.2 hx
      cases n with
      | zero => simpa [pressed_keysyms_after, keys_held_from] using h0
      | succ m =>
        rw [List.take_succ_cons, pressed_keysyms_after_cons, keys_held_from_cons]
        exact (ih _ _ hlen1 hu1 h1).2 hrest m (by simpa using hn)

/-- The arrays of the keyboard after a sequence of events are the arrays
computed from the keysyms each event resolves to. -/
theorem handle_keyboard_keys_eq_after (lib : xkb_lib) (inputs : List key_input)
    (keyboard : sway_keyboard) :
    (handle_keyboard_keys lib keyboard inputs).pressed_keysyms_translated
        = pressed_keysyms_after (event_keysyms_translated lib)
            keyboard.pressed_keysyms_translated inputs
    ∧ (handle_keyboard_keys lib keyboard inputs).pressed_keysyms_raw
        = pressed_keysyms_after (event_keysyms_raw lib) keyboard.pressed_keysyms_raw inputs := by
  induction inputs generalizing keyboard with
  | nil => exact ⟨rfl, rfl⟩
  | cons x rest ih =>
    obtain ⟨wlr_device, event⟩ := x
    have h := ih (handle_keyboard_key lib keyboard wlr_device event).1
    simp only [handle_keyboard_keys]
    rw [h.1, h.2]
    exact ⟨rfl, rfl⟩

theorem tracks_exactly_empty (cap : Nat) : tracks_exactly (pressed_keysyms_empty cap) [] := by
  intro k hk
  constructor
  · intro h
    exact absurd (List.eq_of_mem_replicate h) hk
  · intro h
    simp [held_keysyms] at h

/-- An array that is exact with no key down is empty. -/
theorem eq_empty_of_tracks_exactly_nil (s : List Nat) (h : tracks_exactly s []) :
    s = pressed_keysyms_empty s.length := by
  unfold pressed_keysyms_empty
  rw [List.eq_replicate_iff]
  refine ⟨rfl, ?_⟩
  intro b hb
  by_contra hne
  have := (h b hne).1 hb
  simp [held_keysyms] at this

/-! ## Claims -/

/-- C1: starting from a freshly created keyboard, after any finite sequence of
key events, whatever keysyms the resolvers return and whatever the press or
release states, no slot of the translated or of the raw pressed-set holds a
keysym for which `keysym_is_modifier` is true; both arrays keep their
`SWAY_KEYBOARD_PRESSED_KEYSYMS_CAP` slots. -/
theorem C1_no_modifier_in_pressed_sets (lib : xkb_lib) (keyboard : sway_keyboard)
    (inputs : List key_input) (hcreate : sway_keyboard_create true = some keyboard) :
    (∀ i, i < SWAY_KEYBOARD_PRESSED_KEYSYMS_CAP →
      ∃ x, (handle_keyboard_keys lib keyboard inputs).pressed_keysyms_translated.get? i = some x
        ∧ keysym_is_modifier x = false)
    ∧ (∀ i, i < SWAY_KEYBOARD_PRESSED_KEYSYMS_CAP →
      ∃ x, (handle_keyboard_keys lib keyboard inputs).pressed_keysyms_raw.get? i = some x
        ∧ keysym_is_modifier x = false) := by
  obtain ⟨⟨ht, ht2⟩, ⟨hr, hr2⟩⟩ :=
    handle_keyboard_keys_clean lib keyboard inputs (sway_keyboard_create_clean hcreate)
  constructor
  · intro i hi
    rw [← ht] at hi
    exact ⟨_, List.get?_eq_get hi, ht2 _ (List.get_mem _ _ _)⟩
  · intro i hi
    rw [← hr] at hi
    exact ⟨_, List.get?_eq_get hi, hr2 _ (List.get_mem _ _ _)⟩

/-- Witness of C1: Shift_L pressed, `2` pressed, Shift_L released, `2`
released on the sample keymap. -/
theorem C1_no_modifier_in_pressed_sets_witness :
    sway_keyboard_create true = some sample_keyboard
    ∧ (∀ i, i < SWAY_KEYBOARD_PRESSED_KEYSYMS_CAP →
      ∃ x, (handle_keyboard_keys sample_lib sample_keyboard
          sample_inputs).pressed_keysyms_translated.get? i = some x
        ∧ keysym_is_modifier x = false)
    ∧ (∀ i, i < SWAY_KEYBOARD_PRESSED_KEYSYMS_CAP →
      ∃ x, (handle_keyboard_keys sample_lib sample_keyboard
          sample_inputs).pressed_keysyms_raw.get? i = some x
        ∧ keysym_is_modifier x = false) :=
  ⟨by decide, C1_no_modifier_in_pressed_sets sample_lib sample_keyboard sample_inputs
    (by decide)⟩

/-- C2: into the empty pressed-set of capacity N, add each keysym of a list of
at least N+1 pairwise distinct keysyms in turn. The array keeps its N slots and
`pressed_keysyms_length` ends at exactly N. Every add issued once the set is
full leaves the set as it is, and the keysym of such an add is not a member of
the final set: `pressed_keysyms_index` returns -1 for it. -/
theorem C2_add_beyond_capacity (N : Nat) (keysyms : List Nat)
    (hdistinct : keysyms.Nodup) (hlen : N + 1 ≤ keysyms.length) :
    (pressed_keysyms_add_all (pressed_keysyms_empty N) keysyms).length = N
    ∧ pressed_keysyms_length (pressed_keysyms_add_all (pressed_keysyms_empty N) keysyms) = N
    ∧ ∀ earlier k later, keysyms = earlier ++ k :: later →
        pressed_keysyms_length (pressed_keysyms_add_all (pressed_keysyms_empty N) earlier) = N →
        pressed_keysyms_add (pressed_keysyms_add_all (pressed_keysyms_empty N) earlier) k
            = pressed_keysyms_add_all (pressed_keysyms_empty N) earlier
          ∧ pressed_keysyms_index
              (pressed_keysyms_add_all (pressed_keysyms_empty N) keysyms) k = -1 := by
  have hlen0 : (pressed_keysyms_empty N).length = N := by simp [pressed_keysyms_empty]
  have hmem0 : ∀ x ∈ pressed_keysyms_empty N, x = XKB_KEY_NoSymbol := fun x hx =>
    List.eq_of_mem_replicate hx
  refine ⟨by rw [pressed_keysyms_add_all_length, hlen0], ?_, ?_⟩
  · rw [pressed_keysyms_length_add_all _ _ hdistinct (fun k _ hk0 hk => hk0 (hmem0 k hk)),
      hlen0, pressed_keysyms_length_empty]
    have := length_filter_ne_NoSymbol keysyms hdistinct
    omega
  · intro earlier k later hsplit hfull
    have hfull2 : XKB_KEY_NoSymbol ∉ pressed_keysyms_add_all (pressed_keysyms_empty N) earlier := by
      rw [← pressed_keysyms_length_eq_iff, pressed_keysyms_add_all_length, hlen0]
      exact hfull
    have hfinal : pressed_keysyms_add_all (pressed_keysyms_empty N) keysyms
        = pressed_keysyms_add_all (pressed_keysyms_empty N) earlier := by
      rw [hsplit, pressed_keysyms_add_all_append, pressed_keysyms_add_all_full _ _ hfull2]
    refine ⟨pressed_keysyms_add_full _ k hfull2, ?_⟩
    rw [hfinal, pressed_keysyms_index_eq, if_neg]
    intro hk
    rcases mem_pressed_keysyms_add_all hk with h1 | h1
    · exact hfull2 (hmem0 k h1 ▸ hk)
    · rw [hsplit] at hdistinct
      exact (List.nodup_append.1 hdistinct).2.2 h1 (List.mem_cons_self _ _)

/-- Witness of C2: the forty keysyms 97 to 136 added to the empty set of
capacity 32. -/
theorem C2_add_beyond_capacity_witness :
    sample_forty_keysyms.Nodup
    ∧ SWAY_KEYBOARD_PRESSED_KEYSYMS_CAP + 1 ≤ sample_forty_keysyms.length
    ∧ (pressed_keysyms_add_all (pressed_keysyms_empty SWAY_KEYBOARD_PRESSED_KEYSYMS_CAP)
        sample_forty_keysyms).length = SWAY_KEYBOARD_PRESSED_KEYSYMS_CAP
    ∧ pressed_keysyms_length
        (pressed_keysyms_add_all (pressed_keysyms_empty SWAY_KEYBOARD_PRESSED_KEYSYMS_CAP)
          sample_forty_keysyms) = SWAY_KEYBOARD_PRESSED_KEYSYMS_CAP
    ∧ ∀ earlier k later, sample_forty_keysyms = earlier ++ k :: later →
        pressed_keysyms_length
            (pressed_keysyms_add_all (pressed_keysyms_empty SWAY_KEYBOARD_PRESSED_KEYSYMS_CAP)
              earlier) = SWAY_KEYBOARD_PRESSED_KEYSYMS_CAP →
        pressed_keysyms_add
            (pressed_keysyms_add_all (pressed_keysyms_empty SWAY_KEYBOARD_PRESSED_KEYSYMS_CAP)
              earlier) k
            = pressed_keysyms_add_all (pressed_keysyms_empty SWAY_KEYBOARD_PRESSED_KEYSYMS_CAP)
                earlier
          ∧ pressed_keysyms_index
              (pressed_keysyms_add_all (pressed_keysyms_empty SWAY_KEYBOARD_PRESSED_KEYSYMS_CAP)
                sample_forty_keysyms) k = -1 :=
  ⟨List.nodup_range' 97 40, by decide,
    C2_add_beyond_capacity SWAY_KEYBOARD_PRESSED_KEYSYMS_CAP sample_forty_keysyms
      (List.nodup_range' 97 40) (by decide)⟩

/-- C3, counterexample: with `a` (97) already in slot 0, adding 97 changes
nothing and removing 97 then clears slot 0, so the array is not back in its
prior state. -/
theorem C3_remove_add_counterexample :
    pressed_keysyms_remove (pressed_keysyms_add sample_pressed_a 97) 97
        = pressed_keysyms_empty 32
    ∧ pressed_keysyms_remove (pressed_keysyms_add sample_pressed_a 97) 97
        ≠ sample_pressed_a := by
  decide

/-- C3, amended: `pressed_keysyms_add` of k followed by `pressed_keysyms_remove`
of k returns the array to its prior state, slot for slot, exactly when k did
not occupy a slot before (`pressed_keysyms_index` is -1) or k is the empty
sentinel. -/
theorem C3_remove_add_restores_iff (s : List Nat) (k : Nat) :
    pressed_keysyms_remove (pressed_keysyms_add s k) k = s
      ↔ (pressed_keysyms_index s k = -1 ∨ k = XKB_KEY_NoSymbol) := by
  by_cases hks : k ∈ s
  · have hidx : ¬ pressed_keysyms_index s k = -1 := by
      rw [pressed_keysyms_index_eq, if_pos hks]
      omega
    rw [pressed_keysyms_add_mem s k hks]
    by_cases hk : k = XKB_KEY_NoSymbol
    · rw [hk, pressed_keysyms_remove_NoSymbol]
      simp
    · have := pressed_keysyms_remove_mem_ne s k hk hks
      simp [this, hidx, hk]
  · have hidx : pressed_keysyms_index s k = -1 := by
      rw [pressed_keysyms_index_eq, if_neg hks]
    rw [pressed_keysyms_remove_add_not_mem s k hks]
    simp [hidx]

/-- C4: `pressed_keysyms_add` is idempotent: adding k a second time leaves the
array as the first add left it, and so `pressed_keysyms_length` is the same
after the second add as after the first. -/
theorem C4_add_idempotent (s : List Nat) (k : Nat) :
    pressed_keysyms_add (pressed_keysyms_add s k) k = pressed_keysyms_add s k
    ∧ pressed_keysyms_length (pressed_keysyms_add (pressed_keysyms_add s k) k)
        = pressed_keysyms_length (pressed_keysyms_add s k) := by
  rw [pressed_keysyms_add_add]
  exact ⟨rfl, rfl⟩

/-- C5: starting from the empty pressed-set (of any capacity), after any finite
sequence of `pressed_keysyms_add`, `pressed_keysyms_remove` and
`pressed_keysyms_update` calls, a keysym other than NoSymbol is in at most one
slot: two slots that hold it are the same slot. -/
theorem C5_keysym_in_at_most_one_slot (cap : Nat) (calls : List pressed_call)
    (k i j : Nat) (hk : k ≠ XKB_KEY_NoSymbol)
    (hi : (pressed_calls (pressed_keysyms_empty cap) calls).get? i = some k)
    (hj : (pressed_calls (pressed_keysyms_empty cap) calls).get? j = some k) :
    i = j :=
  index_unique_of_count_le_one _ k
    (pressed_calls_unique _ calls (pressed_keysyms_unique_empty cap) k hk) i j hi hj

/-- Witness of C5: after the sample calls on the empty set of capacity 32,
`b` (98) is in slot 1. -/
theorem C5_keysym_in_at_most_one_slot_witness :
    98 ≠ XKB_KEY_NoSymbol
    ∧ (pressed_calls (pressed_keysyms_empty 32) sample_calls).get? 1 = some 98
    ∧ 1 = 1 :=
  ⟨by decide, by decide,
    C5_keysym_in_at_most_one_slot 32 sample_calls 98 1 1 (by decide) (by decide) (by decide)⟩

/-- C6: for every keycode, with m the active modifier mask and c the consumed
mask reported for the key (both `uint32_t`), `keyboard_keysyms_translated`
returns the effective modifiers `m & ~c`: bit i of the result is set exactly
when it is set in m and not in c. Hence the result and c have no bit in common:
no consumed modifier appears in the effective mask. -/
theorem C6_translated_clears_consumed (lib : xkb_lib) (device : wlr_input_device)
    (keycode : Nat) (m c : Nat)
    (hm : lib.wlr_keyboard_get_modifiers device.keyboard = m)
    (hc : lib.xkb_state_key_get_consumed_mods2 device.keyboard keycode = c)
    (hm32 : m < UINT32_MOD) (hc32 : c < UINT32_MOD) :
    (keyboard_keysyms_translated lib device keycode).2 = m &&& (UINT32_MOD - 1 - c)
    ∧ (∀ i, (keyboard_keysyms_translated lib device keycode).2.testBit i
        = (m.testBit i && !c.testBit i))
    ∧ (keyboard_keysyms_translated lib device keycode).2 &&& c = 0 := by
  have heff : (keyboard_keysyms_translated lib device keycode).2
      = (m % UINT32_MOD) &&& (UINT32_MOD - 1 - c % UINT32_MOD) := by
    simp only [keyboard_keysyms_translated, hm, hc]
  have hbits : ∀ i, (keyboard_keysyms_translated lib device keycode).2.testBit i
      = (m.testBit i && !c.testBit i) := by
    intro i
    rw [heff, testBit_and_not_uint32]
    by_cases hi : i < 32
    · simp [hi]
    · have hlt : m < 2 ^ i :=
        Nat.lt_of_lt_of_le hm32 (Nat.pow_le_pow_right (by decide) (Nat.le_of_not_lt hi))
      simp [hi, Nat.testBit_lt_two_pow hlt]
  refine ⟨?_, hbits, ?_⟩
  · rw [heff, Nat.mod_eq_of_lt hm32, Nat.mod_eq_of_lt hc32]
  · apply Nat.eq_of_testBit_eq
    intro i
    rw [Nat.testBit_and, hbits i, Nat.zero_testBit]
    cases m.testBit i <;> cases c.testBit i <;> rfl

/-- Witness of C6: on the sample keymap with Shift (bit 0) and Alt (bit 3) held,
key 11 (`2`) consumes Shift and the effective modifiers are Alt alone. -/
theorem C6_translated_clears_consumed_witness :
    (keyboard_keysyms_translated sample_lib (sample_device 9) 11).2 = 8
    ∧ (keyboard_keysyms_translated sample_lib (sample_device 9) 11).2
        = 9 &&& (UINT32_MOD - 1 - 1)
    ∧ (keyboard_keysyms_translated sample_lib (sample_device 9) 11).2 &&& 1 = 0 :=
  ⟨by decide,
    (C6_translated_clears_consumed sample_lib (sample_device 9) 11 9 1
      (by decide) (by decide) (by decide) (by decide)).1,
    (C6_translated_clears_consumed sample_lib (sample_device 9) 11 9 1
      (by decide) (by decide) (by decide) (by decide)).2.2⟩

/-- C7: for two keyboard states with the same keymap and the same effective
layout, whatever modifiers are held in each, `keyboard_keysyms_raw` returns the
same keysyms for a keycode: they are the level 0 symbols of the keymap for the
keycode at the layout index of the key. The returned modifiers are the active
mask, with nothing cleared. -/
theorem C7_raw_independent_of_modifiers (lib : xkb_lib) (d1 d2 : wlr_input_device)
    (keycode : Nat) (hkeymap : d1.keyboard.keymap = d2.keyboard.keymap)
    (hlayout : d1.keyboard.layout = d2.keyboard.layout) :
    (keyboard_keysyms_raw lib d1 keycode).1 = (keyboard_keysyms_raw lib d2 keycode).1
    ∧ (keyboard_keysyms_raw lib d1 keycode).1
        = lib.xkb_keymap_key_get_syms_by_level d1.keyboard.keymap keycode
            (lib.xkb_state_key_get_layout d1.keyboard.keymap d1.keyboard.layout keycode) 0
    ∧ (keyboard_keysyms_raw lib d1 keycode).2
        = lib.wlr_keyboard_get_modifiers d1.keyboard % UINT32_MOD := by
  refine ⟨?_, rfl, rfl⟩
  simp only [keyboard_keysyms_raw, hkeymap, hlayout]

/-- Witness of C7: on the sample keymap key 11 gives `2` (0x32) both with no
modifier held and with Shift and Alt held, where the translated keysym is `@`. -/
theorem C7_raw_independent_of_modifiers_witness :
    (keyboard_keysyms_raw sample_lib (sample_device 0) 11).1
        = (keyboard_keysyms_raw sample_lib (sample_device 9) 11).1
    ∧ (keyboard_keysyms_raw sample_lib (sample_device 9) 11).1 = [0x32]
    ∧ (keyboard_keysyms_raw sample_lib (sample_device 9) 11).2 = 9
    ∧ (keyboard_keysyms_translated sample_lib (sample_device 9) 11).1 = [0x40] :=
  ⟨(C7_raw_independent_of_modifiers sample_lib (sample_device 0) (sample_device 9) 11
      rfl rfl).1, by decide, by decide, by decide⟩

/-- C8: for every key event, press or release, whatever the resolvers return
(also no keysym at all), `handle_keyboard_key` makes exactly two calls on the
seat, in this order: `wlr_seat_set_keyboard` with this device, then
`wlr_seat_keyboard_notify_key` with the time, the keycode (without the offset
of 8 used for resolution) and the state of the event. No dispatch exists in the
handler, so no event is held back. -/
theorem C8_every_key_event_forwarded (lib : xkb_lib) (keyboard : sway_keyboard)
    (wlr_device : wlr_input_device) (event : wlr_event_keyboard_key) :
    (handle_keyboard_key lib keyboard wlr_device event).2
      = [seat_call.wlr_seat_set_keyboard wlr_device.id,
         seat_call.wlr_seat_keyboard_notify_key event.time_msec event.keycode event.state] := by
  simp [handle_keyboard_key]

/-- C9: let A and B be distinct keysyms, neither a modifier nor NoSymbol, and
take the empty pressed-set of a capacity N of at least 2 (the capacity
`SWAY_KEYBOARD_PRESSED_KEYSYMS_CAP` is 32). Applying `pressed_keysyms_update`
for press A, press B, release A, release B gives arrays whose non-empty slots
hold, as sets, A alone, then A and B, then B alone, then nothing, with
`pressed_keysyms_length` 1, 2, 1 and 0. -/
theorem C9_chord_sequence (N A B : Nat) (hN : 2 ≤ N) (hAB : A ≠ B)
    (hA : A ≠ XKB_KEY_NoSymbol) (hB : B ≠ XKB_KEY_NoSymbol)
    (hAm : keysym_is_modifier A = false) (hBm : keysym_is_modifier B = false) :
    ((∀ x, (x ∈ pressed_keysyms_update (pressed_keysyms_empty N) [A]
              wlr_key_state.WLR_KEY_PRESSED ∧ x ≠ XKB_KEY_NoSymbol) ↔ x = A)
      ∧ pressed_keysyms_length (pressed_keysyms_update (pressed_keysyms_empty N) [A]
          wlr_key_state.WLR_KEY_PRESSED) = 1)
    ∧ ((∀ x, (x ∈ pressed_keysyms_update (pressed_keysyms_update (pressed_keysyms_empty N) [A]
              wlr_key_state.WLR_KEY_PRESSED) [B] wlr_key_state.WLR_KEY_PRESSED
            ∧ x ≠ XKB_KEY_NoSymbol) ↔ (x = A ∨ x = B))
      ∧ pressed_keysyms_length (pressed_keysyms_update (pressed_keysyms_update
          (pressed_keysyms_empty N) [A] wlr_key_state.WLR_KEY_PRESSED) [B]
          wlr_key_state.WLR_KEY_PRESSED) = 2)
    ∧ ((∀ x, (x ∈ pressed_keysyms_update (pressed_keysyms_update (pressed_keysyms_update
              (pressed_keysyms_empty N) [A] wlr_key_state.WLR_KEY_PRESSED) [B]
              wlr_key_state.WLR_KEY_PRESSED) [A] wlr_key_state.WLR_KEY_RELEASED
            ∧ x ≠ XKB_KEY_NoSymbol) ↔ x = B)
      ∧ pressed_keysyms_length (pressed_keysyms_update (pressed_keysyms_update
          (pressed_keysyms_update (pressed_keysyms_empty N) [A]
          wlr_key_state.WLR_KEY_PRESSED) [B] wlr_key_state.WLR_KEY_PRESSED) [A]
          wlr_key_state.WLR_KEY_RELEASED) = 1)
    ∧ ((∀ x, ¬ (x ∈ pressed_keysyms_update (pressed_keysyms_update (pressed_keysyms_update
              (pressed_keysyms_update (pressed_keysyms_empty N) [A]
              wlr_key_state.WLR_KEY_PRESSED) [B] wlr_key_state.WLR_KEY_PRESSED) [A]
              wlr_key_state.WLR_KEY_RELEASED) [B] wlr_key_state.WLR_KEY_RELEASED
            ∧ x ≠ XKB_KEY_NoSymbol))
      ∧ pressed_keysyms_length (pressed_keysyms_update (pressed_keysyms_update
          (pressed_keysyms_update (pressed_keysyms_update (pressed_keysyms_empty N) [A]
          wlr_key_state.WLR_KEY_PRESSED) [B] wlr_key_state.WLR_KEY_PRESSED) [A]
          wlr_key_state.WLR_KEY_RELEASED) [B] wlr_key_state.WLR_KEY_RELEASED) = 0) := by
  obtain ⟨n, rfl⟩ : ∃ n, N = n + 2 := ⟨N - 2, by omega⟩
  have hempty : pressed_keysyms_empty (n + 2)
      = XKB_KEY_NoSymbol :: XKB_KEY_NoSymbol :: pressed_keysyms_empty n := by
    simp [pressed_keysyms_empty, List.replicate_succ]
  have hrest : ∀ x, x ∈ pressed_keysyms_empty n → x = XKB_KEY_NoSymbol := fun x hx =>
    List.eq_of_mem_replicate hx
  have hAr : A ∉ pressed_keysyms_empty n := fun h => hA (hrest A h)
  have hBr : B ∉ pressed_keysyms_empty n := fun h => hB (hrest B h)
  have hA2 : ¬ XKB_KEY_NoSymbol = A := fun h => hA h.symm
  have hB2 : ¬ XKB_KEY_NoSymbol = B := fun h => hB h.symm
  have hBA : ¬ B = A := fun h => hAB h.symm
  have h1 : pressed_keysyms_update (pressed_keysyms_empty (n + 2)) [A]
      wlr_key_state.WLR_KEY_PRESSED
      = A :: XKB_KEY_NoSymbol :: pressed_keysyms_empty n := by
    rw [pressed_keysyms_update_singleton _ _ _ hAm, if_pos rfl, hempty, pressed_keysyms_add_cons,
      if_neg hA2, if_pos ⟨rfl, fun h => (List.mem_cons.1 h).elim hA hAr⟩]
  have h2 : pressed_keysyms_update (A :: XKB_KEY_NoSymbol :: pressed_keysyms_empty n) [B]
      wlr_key_state.WLR_KEY_PRESSED = A :: B :: pressed_keysyms_empty n := by
    rw [pressed_keysyms_update_singleton _ _ _ hBm, if_pos rfl, pressed_keysyms_add_cons,
      if_neg hAB, if_neg (fun h => hA h.1), pressed_keysyms_add_cons, if_neg hB2,
      if_pos ⟨rfl, hBr⟩]
  have h3 : pressed_keysyms_update (A :: B :: pressed_keysyms_empty n) [A]
      wlr_key_state.WLR_KEY_RELEASED = XKB_KEY_NoSymbol :: B :: pressed_keysyms_empty n := by
    rw [pressed_keysyms_update_singleton _ _ _ hAm, if_neg (by decide),
      pressed_keysyms_remove_cons, if_pos rfl]
  have h4 : pressed_keysyms_update (XKB_KEY_NoSymbol :: B :: pressed_keysyms_empty n) [B]
      wlr_key_state.WLR_KEY_RELEASED
      = XKB_KEY_NoSymbol :: XKB_KEY_NoSymbol :: pressed_keysyms_empty n := by
    rw [pressed_keysyms_update_singleton _ _ _ hBm, if_neg (by decide),
      pressed_keysyms_remove_cons, if_neg hB2, pressed_keysyms_remove_cons, if_pos rfl]
  rw [h1, h2, h3, h4]
  simp only [pressed_keysyms_length_cons, pressed_keysyms_length_empty, if_neg hA, if_neg hB,
    if_true, List.mem_cons]
  refine ⟨⟨?_, trivial⟩, ⟨?_, trivial⟩, ⟨?_, trivial⟩, ⟨?_, trivial⟩⟩
  · intro x
    constructor
    · rintro ⟨h | h | h, hx⟩
      · exact h
      · exact absurd h hx
      · exact absurd (hrest x h) hx
    · intro h
      exact ⟨Or.inl h, h ▸ hA⟩
  · intro x
    constructor
    · rintro ⟨h | h | h, hx⟩
      · exact Or.inl h
      · exact Or.inr h
      · exact absurd (hrest x h) hx
    · rintro (h | h)
      · exact ⟨Or.inl h, h ▸ hA⟩
      · exact ⟨Or.inr (Or.inl h), h ▸ hB⟩
  · intro x
    constructor
    · rintro ⟨h | h | h, hx⟩
      · exact absurd h hx
      · exact h
      · exact absurd (hrest x h) hx
    · intro h
      exact ⟨Or.inr (Or.inl h), h ▸ hB⟩
  · rintro x ⟨h | h | h, hx⟩
    · exact hx h
    · exact hx h
    · exact hx (hrest x h)

/-- Witness of C9: the chord `a` (97), `b` (98) on the capacity 32. -/
theorem C9_chord_sequence_witness :
    2 ≤ SWAY_KEYBOARD_PRESSED_KEYSYMS_CAP
    ∧ keysym_is_modifier 97 = false ∧ keysym_is_modifier 98 = false
    ∧ pressed_keysyms_update (pressed_keysyms_empty SWAY_KEYBOARD_PRESSED_KEYSYMS_CAP) [97]
        wlr_key_state.WLR_KEY_PRESSED = 97 :: List.replicate 31 0
    ∧ pressed_keysyms_length (pressed_keysyms_update (pressed_keysyms_update
        (pressed_keysyms_empty SWAY_KEYBOARD_PRESSED_KEYSYMS_CAP) [97]
        wlr_key_state.WLR_KEY_PRESSED) [98] wlr_key_state.WLR_KEY_PRESSED) = 2 :=
  ⟨by decide, by decide, by decide, by decide,
    (C9_chord_sequence SWAY_KEYBOARD_PRESSED_KEYSYMS_CAP 97 98 (by decide) (by decide)
      (by decide) (by decide) (by decide) (by decide)).2.1.2⟩

/-- C10: the three cases of `pressed_keysyms_add`. If k already occupies a slot
the array is unchanged. Otherwise, if some slot is empty, the empty slot of
lowest index becomes k and every other slot is unchanged. Otherwise the array
is full and it is unchanged. The function has no failure result. -/
theorem C10_add_contract (s : List Nat) (k : Nat) :
    (k ∈ s → pressed_keysyms_add s k = s)
    ∧ (k ∉ s → XKB_KEY_NoSymbol ∈ s →
        ∃ i, i < s.length
          ∧ s.get? i = some XKB_KEY_NoSymbol
          ∧ (∀ j, j < i → s.get? j ≠ some XKB_KEY_NoSymbol)
          ∧ (pressed_keysyms_add s k).length = s.length
          ∧ (pressed_keysyms_add s k).get? i = some k
          ∧ ∀ j, j ≠ i → (pressed_keysyms_add s k).get? j = s.get? j)
    ∧ (k ∉ s → XKB_KEY_NoSymbol ∉ s → pressed_keysyms_add s k = s) := by
  refine ⟨pressed_keysyms_add_mem s k, ?_, fun _ h0 => pressed_keysyms_add_full s k h0⟩
  intro hks h0
  have hlt : s.indexOf XKB_KEY_NoSymbol < s.length := List.indexOf_lt_length.2 h0
  have hadd : pressed_keysyms_add s k = s.set (s.indexOf XKB_KEY_NoSymbol) k := by
    rw [pressed_keysyms_add_eq, if_neg hks, if_pos h0]
  refine ⟨s.indexOf XKB_KEY_NoSymbol, hlt, List.indexOf_get? h0,
    fun j hj => get?_ne_of_lt_indexOf s _ j hj, ?_, ?_, ?_⟩
  · rw [hadd, List.length_set]
  · rw [hadd, List.get?_eq_getElem?, List.getElem?_set_self hlt]
  · intro j hj
    rw [hadd, List.get?_eq_getElem?, List.get?_eq_getElem?, List.getElem?_set_ne (Ne.symm hj)]

/-- C11: the contract of `pressed_keysyms_remove`. If k occupies no slot the
array is unchanged. Otherwise the slot holding k (the one of lowest index) is
set to the NoSymbol sentinel and every other slot is unchanged. -/
theorem C11_remove_contract (s : List Nat) (k : Nat) :
    (k ∉ s → pressed_keysyms_remove s k = s)
    ∧ (k ∈ s →
        ∃ i, i < s.length
          ∧ s.get? i = some k
          ∧ (∀ j, j < i → s.get? j ≠ some k)
          ∧ (pressed_keysyms_remove s k).length = s.length
          ∧ (pressed_keysyms_remove s k).get? i = some XKB_KEY_NoSymbol
          ∧ ∀ j, j ≠ i → (pressed_keysyms_remove s k).get? j = s.get? j) := by
  refine ⟨pressed_keysyms_remove_not_mem s k, ?_⟩
  intro hks
  have hlt : s.indexOf k < s.length := List.indexOf_lt_length.2 hks
  have hrem : pressed_keysyms_remove s k = s.set (s.indexOf k) XKB_KEY_NoSymbol := by
    rw [pressed_keysyms_remove_eq, if_pos hks]
  refine ⟨s.indexOf k, hlt, List.indexOf_get? hks,
    fun j hj => get?_ne_of_lt_indexOf s _ j hj, ?_, ?_, ?_⟩
  · rw [hrem, List.length_set]
  · rw [hrem, List.get?_eq_getElem?, List.getElem?_set_self hlt]
  · intro j hj
    rw [hrem, List.get?_eq_getElem?, List.get?_eq_getElem?, List.getElem?_set_ne (Ne.symm hj)]

/-- C12: the contract of `pressed_keysyms_index`. When some slot of the array
equals k, the result is the smallest index i of such a slot, with 0 <= i < N
for the capacity N. The result is -1 exactly when no slot equals k. -/
theorem C12_index_contract (s : List Nat) (k : Nat) :
    ((∃ n, s.get? n = some k) →
        ∃ i : Nat, pressed_keysyms_index s k = (i : Int)
          ∧ i < s.length
          ∧ s.get? i = some k
          ∧ ∀ j, j < i → s.get? j ≠ some k)
    ∧ (pressed_keysyms_index s k = -1 ↔ ∀ n, n < s.length → s.get? n ≠ some k) := by
  constructor
  · rintro ⟨n, hn⟩
    have hks : k ∈ s := List.get?_mem hn
    refine ⟨s.indexOf k, ?_, List.indexOf_lt_length.2 hks, List.indexOf_get? hks,
      fun j hj => get?_ne_of_lt_indexOf s _ j hj⟩
    rw [pressed_keysyms_index_eq, if_pos hks]
  · rw [pressed_keysyms_index_eq]
    constructor
    · intro h n _ hn
      have hks : k ∈ s := List.get?_mem hn
      rw [if_pos hks] at h
      omega
    · intro h
      have hks : k ∉ s := by
        intro hmem
        obtain ⟨n, hlt, hn⟩ := List.getElem_of_mem hmem
        exact h n hlt (by rw [List.get?_eq_getElem?, List.getElem?_eq_getElem hlt, hn])
      rw [if_neg hks]

/-- C13: `keysym_is_modifier` is true exactly for the fourteen keysyms Shift_L,
Shift_R, Control_L, Control_R, Caps_Lock, Shift_Lock, Meta_L, Meta_R, Alt_L,
Alt_R, Super_L, Super_R, Hyper_L and Hyper_R, which are the values 0xffe1 to
0xffee. It is false for every other keysym, and for NoSymbol. -/
theorem C13_keysym_is_modifier_iff (k : Nat) :
    (keysym_is_modifier k = true ↔
      k ∈ [XKB_KEY_Shift_L, XKB_KEY_Shift_R, XKB_KEY_Control_L, XKB_KEY_Control_R,
        XKB_KEY_Caps_Lock, XKB_KEY_Shift_Lock, XKB_KEY_Meta_L, XKB_KEY_Meta_R,
        XKB_KEY_Alt_L, XKB_KEY_Alt_R, XKB_KEY_Super_L, XKB_KEY_Super_R,
        XKB_KEY_Hyper_L, XKB_KEY_Hyper_R])
    ∧ (keysym_is_modifier k = true ↔ (0xffe1 ≤ k ∧ k ≤ 0xffee))
    ∧ keysym_is_modifier XKB_KEY_NoSymbol = false := by
  refine ⟨?_, ?_, by decide⟩
  · unfold keysym_is_modifier
    simp only [List.mem_cons, List.mem_singleton, List.not_mem_nil, or_false]
    split
    · rename_i h
      simp only [true_iff]
      exact h
    · rename_i h
      simp only [Bool.false_eq_true, false_iff]
      exact h
  · unfold keysym_is_modifier XKB_KEY_Shift_L XKB_KEY_Shift_R XKB_KEY_Control_L
      XKB_KEY_Control_R XKB_KEY_Caps_Lock XKB_KEY_Shift_Lock XKB_KEY_Meta_L XKB_KEY_Meta_R
      XKB_KEY_Alt_L XKB_KEY_Alt_R XKB_KEY_Super_L XKB_KEY_Super_R XKB_KEY_Hyper_L
      XKB_KEY_Hyper_R
    split
    · rename_i h
      simp only [true_iff]
      omega
    · rename_i h
      simp only [Bool.false_eq_true, false_iff]
      omega

/-- C18: the empty sentinel can be neither pressed nor released. For every
array, full or not, `pressed_keysyms_add` of NoSymbol and
`pressed_keysyms_remove` of NoSymbol return the array as it is. So the entries
of a resolver result that are NoSymbol have no effect in
`pressed_keysyms_update`, and a result made of NoSymbol alone changes neither
the array nor its `pressed_keysyms_length`. -/
theorem C18_NoSymbol_never_pressed (s : List Nat) :
    pressed_keysyms_add s XKB_KEY_NoSymbol = s
    ∧ pressed_keysyms_remove s XKB_KEY_NoSymbol = s
    ∧ (∀ (ks : List Nat) (st : wlr_key_state),
        pressed_keysyms_update s ks st
          = pressed_keysyms_update s (ks.filter (fun k => k ≠ XKB_KEY_NoSymbol)) st)
    ∧ (∀ (n : Nat) (st : wlr_key_state),
        pressed_keysyms_update s (List.replicate n XKB_KEY_NoSymbol) st = s
        ∧ pressed_keysyms_length
            (pressed_keysyms_update s (List.replicate n XKB_KEY_NoSymbol) st)
          = pressed_keysyms_length s) := by
  refine ⟨pressed_keysyms_add_NoSymbol s, pressed_keysyms_remove_NoSymbol s,
    pressed_keysyms_update_filter_NoSymbol s, ?_⟩
  intro n st
  have h : pressed_keysyms_update s (List.replicate n XKB_KEY_NoSymbol) st = s := by
    rw [pressed_keysyms_update_filter_NoSymbol]
    have hnil : (List.replicate n XKB_KEY_NoSymbol).filter (fun k => k ≠ XKB_KEY_NoSymbol)
        = [] := by
      rw [List.filter_eq_nil_iff]
      intro x hx
      simp [List.eq_of_mem_replicate hx]
    rw [hnil]
    rfl
  rw [h]
  exact ⟨rfl, rfl⟩

/-- C15: when the keymap does not compile, `sway_keyboard_configure` leaves the
keyboard as it was: the keymap is the one before the call, the two listeners
are linked or not as before, and both arrays are as before. No call on the
keymap of the device (`wlr_keyboard_set_keymap`), on its repeat information
(`wlr_keyboard_set_repeat_info`), on the seat (`wlr_seat_set_keyboard`) or on a
listener (`wl_list_remove`, `wl_signal_add`) is made, and the old keymap is not
released. On a freshly created keyboard the keymap stays unset. -/
theorem C15_configure_failure_atomic (env : configure_env) (keyboard : sway_keyboard)
    (config : Option input_config) (wlr_device : wlr_input_device)
    (hfail : env.xkb_keymap_new_from_names (sway_keyboard_rule_names env config) = none) :
    (sway_keyboard_configure env keyboard config wlr_device).1 = keyboard
    ∧ (∀ c ∈ (sway_keyboard_configure env keyboard config wlr_device).2,
        (∀ d km, c ≠ configure_call.wlr_keyboard_set_keymap d km)
        ∧ (∀ d rate delay, c ≠ configure_call.wlr_keyboard_set_repeat_info d rate delay)
        ∧ (∀ d, c ≠ configure_call.wlr_seat_set_keyboard d)
        ∧ (∀ l, c ≠ configure_call.wl_list_remove l)
        ∧ (∀ d l, c ≠ configure_call.wl_signal_add d l)
        ∧ (∀ km, c ≠ configure_call.xkb_keymap_unref km))
    ∧ (sway_keyboard_create true = some keyboard →
        (sway_keyboard_configure env keyboard config wlr_device).1.keymap = none
        ∧ (sway_keyboard_configure env keyboard config wlr_device).1.keyboard_key_linked
            = false
        ∧ (sway_keyboard_configure env keyboard config wlr_device).1.keyboard_modifiers_linked
            = false) := by
  have hstate : (sway_keyboard_configure env keyboard config wlr_device).1 = keyboard := by
    unfold sway_keyboard_configure
    simp only [hfail]
    split <;> rfl
  refine ⟨hstate, ?_, ?_⟩
  · intro c hc
    unfold sway_keyboard_configure at hc
    simp only [hfail] at hc
    split at hc
    · simp only [List.mem_singleton] at hc
      subst hc
      simp
    · simp only [List.mem_cons, List.mem_singleton, List.not_mem_nil, or_false] at hc
      rcases hc with hc | hc <;> subst hc <;> simp
  · intro hcreate
    rw [hstate]
    unfold sway_keyboard_create at hcreate
    simp only [Bool.not_true, Bool.false_eq_true, if_false, Option.some.injEq] at hcreate
    subst hcreate
    exact ⟨rfl, rfl, rfl⟩

/-- Witness of C15: the fresh keyboard configured with rules that do not
compile. -/
theorem C15_configure_failure_atomic_witness :
    sample_env.xkb_keymap_new_from_names
        (sway_keyboard_rule_names sample_env (some sample_bad_config)) = none
    ∧ (sway_keyboard_configure sample_env sample_keyboard (some sample_bad_config)
        (sample_device 0)).1 = sample_keyboard
    ∧ (sway_keyboard_configure sample_env sample_keyboard (some sample_bad_config)
        (sample_device 0)).2
        = [configure_call.sway_log "cannot configure keyboard: keymap does not exist",
           configure_call.xkb_context_unref] :=
  ⟨by decide,
    (C15_configure_failure_atomic sample_env sample_keyboard (some sample_bad_config)
      (sample_device 0) (by decide)).1,
    by decide⟩

/-- C16, counterexample. On the sample keymap: Shift_L is pressed, `2` is
pressed with Shift held and resolves to `@` (0x40) on the translated track,
Shift_L is released, `2` is released and now resolves to `2`. No key is down,
and the translated array still holds `@` in slot 0. On the twin keymap, where
two keys give `a`: both are pressed and the first is released; the second is
still down, pressed as `a`, and neither array holds `a`. -/
theorem C16_stuck_keysym_counterexample :
    sway_keyboard_create true = some sample_keyboard
    ∧ keys_held (event_keysyms_translated sample_lib) sample_inputs = []
    ∧ (handle_keyboard_keys sample_lib sample_keyboard sample_inputs).pressed_keysyms_translated
        = 0x40 :: List.replicate 31 0
    ∧ pressed_keysyms_length
        (handle_keyboard_keys sample_lib sample_keyboard
          sample_inputs).pressed_keysyms_translated = 1
    ∧ keys_held (event_keysyms_translated sample_twin_lib) sample_twin_inputs = [(31, [0x61])]
    ∧ keys_held (event_keysyms_raw sample_twin_lib) sample_twin_inputs = [(31, [0x61])]
    ∧ (handle_keyboard_keys sample_twin_lib sample_keyboard
        sample_twin_inputs).pressed_keysyms_translated = List.replicate 32 0
    ∧ (handle_keyboard_keys sample_twin_lib sample_keyboard
        sample_twin_inputs).pressed_keysyms_raw = List.replicate 32 0 := by
  decide

/-- C16, amended. Take any sequence of key events on a fresh keyboard. After
each event the translated pressed-set holds, in its non-empty slots, exactly
the keysyms other than modifiers that the keys currently down were pressed as,
if and only if every event is trackable when it arrives: at a press, the keys
then down were pressed as at most `SWAY_KEYBOARD_PRESSED_KEYSYMS_CAP` distinct
such keysyms in all; at a release, the release resolves to no such keysym that
another key still down was pressed as, and every such keysym that the released
key was pressed as is among those the release resolves to or is one that a key
still down was pressed as. The same holds for the raw pressed-set with the raw
keysyms. When every event is trackable, a pressed-set is empty whenever no key
is down. -/
theorem C16_tracks_exactly_iff_trackable (lib : xkb_lib) (keyboard : sway_keyboard)
    (inputs : List key_input) (hcreate : sway_keyboard_create true = some keyboard) :
    ((∀ n, n ≤ inputs.length → ∀ k, k ≠ XKB_KEY_NoSymbol →
        (k ∈ (handle_keyboard_keys lib keyboard (inputs.take n)).pressed_keysyms_translated
          ↔ ∃ e ∈ keys_held (event_keysyms_translated lib) (inputs.take n),
              k ∈ e.2 ∧ keysym_is_modifier k = false))
      ↔ events_trackable SWAY_KEYBOARD_PRESSED_KEYSYMS_CAP (event_keysyms_translated lib) []
          inputs)
    ∧ ((∀ n, n ≤ inputs.length → ∀ k, k ≠ XKB_KEY_NoSymbol →
        (k ∈ (handle_keyboard_keys lib keyboard (inputs.take n)).pressed_keysyms_raw
          ↔ ∃ e ∈ keys_held (event_keysyms_raw lib) (inputs.take n),
              k ∈ e.2 ∧ keysym_is_modifier k = false))
      ↔ events_trackable SWAY_KEYBOARD_PRESSED_KEYSYMS_CAP (event_keysyms_raw lib) [] inputs)
    ∧ (events_trackable SWAY_KEYBOARD_PRESSED_KEYSYMS_CAP (event_keysyms_translated lib) []
          inputs →
        ∀ n, n ≤ inputs.length →
          keys_held (event_keysyms_translated lib) (inputs.take n) = [] →
          (handle_keyboard_keys lib keyboard (inputs.take n)).pressed_keysyms_translated
            = pressed_keysyms_empty SWAY_KEYBOARD_PRESSED_KEYSYMS_CAP)
    ∧ (events_trackable SWAY_KEYBOARD_PRESSED_KEYSYMS_CAP (event_keysyms_raw lib) [] inputs →
        ∀ n, n ≤ inputs.length →
          keys_held (event_keysyms_raw lib) (inputs.take n) = [] →
          (handle_keyboard_keys lib keyboard (inputs.take n)).pressed_keysyms_raw
            = pressed_keysyms_empty SWAY_KEYBOARD_PRESSED_KEYSYMS_CAP) := by
  unfold sway_keyboard_create at hcreate
  simp only [Bool.not_true, Bool.false_eq_true, if_false, Option.some.injEq] at hcreate
  have hT0 : keyboard.pressed_keysyms_translated
      = pressed_keysyms_empty SWAY_KEYBOARD_PRESSED_KEYSYMS_CAP := by
    rw [← hcreate]
    rfl
  have hR0 : keyboard.pressed_keysyms_raw
      = pressed_keysyms_empty SWAY_KEYBOARD_PRESSED_KEYSYMS_CAP := by
    rw [← hcreate]
    rfl
  have hlen0 : (pressed_keysyms_empty SWAY_KEYBOARD_PRESSED_KEYSYMS_CAP).length
      = SWAY_KEYBOARD_PRESSED_KEYSYMS_CAP := by simp [pressed_keysyms_empty]
  have hspell : ∀ (s : List Nat) (held : List (Nat × List Nat)),
      tracks_exactly s held
        ↔ ∀ k, k ≠ XKB_KEY_NoSymbol →
            (k ∈ s ↔ ∃ e ∈ held, k ∈ e.2 ∧ keysym_is_modifier k = false) := by
    intro s held
    have hk : ∀ k, k ≠ XKB_KEY_NoSymbol →
        (k ∈ held_keysyms held ↔ ∃ e ∈ held, k ∈ e.2 ∧ keysym_is_modifier k = false) := by
      intro k hk0
      rw [mem_held_keysyms]
      constructor
      · rintro ⟨e, he, h⟩
        rw [mem_tracked_keysyms] at h
        exact ⟨e, he, h.1, h.2.1⟩
      · rintro ⟨e, he, h1, h2⟩
        exact ⟨e, he, (mem_tracked_keysyms _ _).2 ⟨h1, h2, hk0⟩⟩
    constructor
    · intro h k hk0
      rw [h k hk0, hk k hk0]
    · intro h k hk0
      rw [h k hk0, hk k hk0]
  have hiff : ∀ (resolve : key_input → List Nat),
      (∀ n, n ≤ inputs.length → ∀ k, k ≠ XKB_KEY_NoSymbol →
        (k ∈ pressed_keysyms_after resolve
              (pressed_keysyms_empty SWAY_KEYBOARD_PRESSED_KEYSYMS_CAP) (inputs.take n)
          ↔ ∃ e ∈ keys_held resolve (inputs.take n),
              k ∈ e.2 ∧ keysym_is_modifier k = false))
      ↔ events_trackable SWAY_KEYBOARD_PRESSED_KEYSYMS_CAP resolve [] inputs := by
    intro resolve
    rw [← tracks_exactly_after_iff SWAY_KEYBOARD_PRESSED_KEYSYMS_CAP resolve inputs
      (pressed_keysyms_empty SWAY_KEYBOARD_PRESSED_KEYSYMS_CAP) [] hlen0
      (pressed_keysyms_unique_empty _) (tracks_exactly_empty _)]
    constructor
    · intro h n hn
      exact (hspell _ _).2 (h n hn)
    · intro h n hn
      exact (hspell _ _).1 (h n hn)
  have hempty : ∀ (resolve : key_input → List Nat),
      events_trackable SWAY_KEYBOARD_PRESSED_KEYSYMS_CAP resolve [] inputs →
      ∀ n, n ≤ inputs.length → keys_held resolve (inputs.take n) = [] →
        pressed_keysyms_after resolve
            (pressed_keysyms_empty SWAY_KEYBOARD_PRESSED_KEYSYMS_CAP) (inputs.take n)
          = pressed_keysyms_empty SWAY_KEYBOARD_PRESSED_KEYSYMS_CAP := by
    intro resolve htr n hn hheld
    have hex := (tracks_exactly_after_iff SWAY_KEYBOARD_PRESSED_KEYSYMS_CAP resolve inputs
      (pressed_keysyms_empty SWAY_KEYBOARD_PRESSED_KEYSYMS_CAP) [] hlen0
      (pressed_keysyms_unique_empty _) (tracks_exactly_empty _)).2 htr n hn
    have hheld2 : keys_held_from resolve [] (inputs.take n) = [] := hheld
    rw [hheld2] at hex
    have h1 := eq_empty_of_tracks_exactly_nil _ hex
    rw [pressed_keysyms_after_length, hlen0] at h1
    exact h1
  have heq : ∀ n, (handle_keyboard_keys lib keyboard (inputs.take n)).pressed_keysyms_translated
        = pressed_keysyms_after (event_keysyms_translated lib)
            (pressed_keysyms_empty SWAY_KEYBOARD_PRESSED_KEYSYMS_CAP) (inputs.take n)
      ∧ (handle_keyboard_keys lib keyboard (inputs.take n)).pressed_keysyms_raw
        = pressed_keysyms_after (event_keysyms_raw lib)
            (pressed_keysyms_empty SWAY_KEYBOARD_PRESSED_KEYSYMS_CAP) (inputs.take n) := by
    intro n
    have h := handle_keyboard_keys_eq_after lib (inputs.take n) keyboard
    rw [hT0, hR0] at h
    exact h
  refine ⟨?_, ?_, ?_, ?_⟩
  · rw [← hiff (event_keysyms_translated lib)]
    constructor
    · intro h n hn
      rw [← (heq n).1]
      exact h n hn
    · intro h n hn
      rw [(heq n).1]
      exact h n hn
  · rw [← hiff (event_keysyms_raw lib)]
    constructor
    · intro h n hn
      rw [← (heq n).2]
      exact h n hn
    · intro h n hn
      rw [(heq n).2]
      exact h n hn
  · intro htr n hn hheld
    rw [(heq n).1]
    exact hempty _ htr n hn hheld
  · intro htr n hn hheld
    rw [(heq n).2]
    exact hempty _ htr n hn hheld

/-- Witness of C16: on the sample keymap `a` is typed, then `A` with Shift
held. Every event is trackable on both tracks, so both arrays are exact after
each event; after the fourth event the key 30 is down, pressed as `A` (0x41) on
the translated track, and the translated array holds `A`; after the sixth no
key is down and the array is empty. On the twin keymap the two keys that give
`a`, pressed in turn, are trackable too. -/
theorem C16_tracks_exactly_iff_trackable_witness :
    sway_keyboard_create true = some sample_keyboard
    ∧ events_trackable SWAY_KEYBOARD_PRESSED_KEYSYMS_CAP
        (event_keysyms_translated sample_twin_lib) [] sample_twin_in_turn_inputs
    ∧ events_trackable SWAY_KEYBOARD_PRESSED_KEYSYMS_CAP
        (event_keysyms_translated sample_lib) [] sample_shift_inputs
    ∧ keys_held (event_keysyms_translated sample_lib) (sample_shift_inputs.take 4)
        = [(30, [0x41]), (42, [XKB_KEY_Shift_L])]
    ∧ (handle_keyboard_keys sample_lib sample_keyboard
        (sample_shift_inputs.take 4)).pressed_keysyms_translated = 0x41 :: List.replicate 31 0
    ∧ (∀ n, n ≤ sample_shift_inputs.length → ∀ k, k ≠ XKB_KEY_NoSymbol →
        (k ∈ (handle_keyboard_keys sample_lib sample_keyboard
              (sample_shift_inputs.take n)).pressed_keysyms_translated
          ↔ ∃ e ∈ keys_held (event_keysyms_translated sample_lib) (sample_shift_inputs.take n),
              k ∈ e.2 ∧ keysym_is_modifier k = false))
    ∧ (handle_keyboard_keys sample_lib sample_keyboard
        (sample_shift_inputs.take 6)).pressed_keysyms_translated
        = pressed_keysyms_empty SWAY_KEYBOARD_PRESSED_KEYSYMS_CAP :=
  ⟨by decide,
    by simp only [sample_twin_in_turn_inputs, events_trackable, event_trackable]; decide,
    by simp only [sample_shift_inputs, events_trackable, event_trackable]; decide,
    by decide, by decide,
    (C16_tracks_exactly_iff_trackable sample_lib sample_keyboard sample_shift_inputs
      (by decide)).1.2
      (by simp only [sample_shift_inputs, events_trackable, event_trackable]; decide),
    by decide⟩

end Sway
